import Mathlib

/-!
Verification of the `sylphbyte/encrypt` Go library against its specification.

We shallowly embed the library's core: the PKCS7 padding strategy, the
Base64 encoding strategy, the block-cipher mode engine (ECB/CBC/CFB/OFB/CTR/GCM),
the AES primitive from Go's standard library (`crypto/aes`, FIPS-197), and the
symmetric encryptor facade (`NewAES`, chainable setters, `Encrypt`/`Decrypt`).

Bytes are modelled as `Nat` (with values kept below 256 where the Go byte type
truncates, truncation written explicitly as `% 256`).  Go functions returning
`(T, error)` are modelled as `GoResult`; a Go runtime panic (slice bounds out of
range, explicit `panic(...)`) is the distinct `.panicked` constructor, so typed
errors and crashes are distinguishable.  Randomness (`crypto/rand` via
`io.ReadFull(rand.Reader, buf)`) is modelled by passing the byte stream the
reader would produce as an explicit `rnd : List Nat` argument; a draw of `n`
bytes is `rnd.take n`.
-/

set_option maxRecDepth 100000

/-- Result of a Go call: a value, a typed `error`, or a runtime panic. -/
inductive GoResult (α : Type) where
  | ok (val : α)
  | err (msg : String)
  | panicked (msg : String)
  deriving Repr, DecidableEq

namespace GoResult

def isOk {α : Type} : GoResult α → Bool
  | .ok _ => true
  | _ => false

def isErr {α : Type} : GoResult α → Bool
  | .err _ => true
  | _ => false

def isPanic {α : Type} : GoResult α → Bool
  | .panicked _ => true
  | _ => false

/-- Model of `errors.Wrap(err, msg)` from github.com/pkg/errors:
prepends context to the message of an error; leaves `ok` untouched. -/
def wrap {α : Type} (msg : String) : GoResult α → GoResult α
  | .ok v => .ok v
  | .err e => .err (msg ++ ": " ++ e)
  | .panicked e => .panicked e

def bind {α β : Type} : GoResult α → (α → GoResult β) → GoResult β
  | .ok v, f => f v
  | .err e, _ => .err e
  | .panicked e, _ => .panicked e

end GoResult

/-- Pointwise XOR of two byte lists, truncated to the shorter one
(Go's `xorBytes` semantics). -/
def zipXor : List Nat → List Nat → List Nat
  | x :: xs, y :: ys => Nat.xor x y :: zipXor xs ys
  | _, _ => []

theorem zipXor_length_le (xs ys : List Nat) :
    (zipXor xs ys).length = min xs.length ys.length := by
  induction xs generalizing ys with
  | nil => simp [zipXor]
  | cons x xs ih =>
    cases ys with
    | nil => simp [zipXor]
    | cons y ys => simp [zipXor, ih, Nat.succ_min_succ]

theorem zipXor_zipXor_left (xs ys : List Nat) (h : xs.length = ys.length) :
    zipXor xs (zipXor xs ys) = ys := by
  induction xs generalizing ys with
  | nil => cases ys with
    | nil => rfl
    | cons y ys => simp at h
  | cons x xs ih =>
    cases ys with
    | nil => simp at h
    | cons y ys =>
      simp only [zipXor, List.cons.injEq]
      refine ⟨Nat.xor_cancel_left x y, ih ys ?_⟩
      simpa using h

theorem zipXor_cancel_right (xs ys : List Nat) (h : xs.length ≤ ys.length) :
    zipXor (zipXor xs ys) ys = xs := by
  induction xs generalizing ys with
  | nil => cases ys <;> rfl
  | cons x xs ih =>
    cases ys with
    | nil => simp at h
    | cons y ys =>
      simp only [zipXor, List.cons.injEq]
      exact ⟨Nat.xor_cancel_right y x, ih ys (by simpa using h)⟩

/-! ## Padding strategy (`padding.go`)

Go source: `PKCS7Padding.Pad` / `PKCS7Padding.Unpad`.  `blockSize` is a Go
`int`; negative values are caught by the `blockSize <= 0` guard, so `Nat` with
the `= 0` case models the whole rejected range.  `byte(padding)` is the Go
byte conversion, i.e. `padding % 256`. -/

/-- `PKCS7Padding.Pad`: appends `n = blockSize - len(data) % blockSize` copies
of the byte `byte(n)`. -/
def pkcs7Pad (data : List Nat) (blockSize : Nat) : GoResult (List Nat) :=
  if blockSize = 0 then .err "块大小必须大于0"
  else if blockSize > 256 then .err "块大小不能超过256"
  else
    let padding := blockSize - data.length % blockSize
    .ok (data ++ List.replicate padding (padding % 256))

/-- `PKCS7Padding.Unpad`: validates and strips PKCS7 padding. -/
def pkcs7Unpad (data : List Nat) (blockSize : Nat) : GoResult (List Nat) :=
  if blockSize = 0 then .err "块大小必须大于0"
  else if blockSize > 256 then .err "块大小不能超过256"
  else if data.length = 0 then .err "数据长度为0"
  else if data.length % blockSize ≠ 0 then .err "数据长度不是块大小的整数倍"
  else
    let padding := data.getLastD 0
    if padding > blockSize ∨ padding = 0 then .err "非法填充数据"
    else if (data.drop (data.length - padding)).all (fun b => b = padding % 256) then
      .ok (data.take (data.length - padding))
    else .err "填充数据不一致"

example : pkcs7Pad [1, 2, 3] 4 = .ok [1, 2, 3, 1] := by decide
example : pkcs7Pad [1, 2, 3, 4] 4 = .ok [1, 2, 3, 4, 4, 4, 4, 4] := by decide
example : pkcs7Unpad [1, 2, 3, 1] 4 = .ok [1, 2, 3] := by decide
example : pkcs7Unpad [1, 2, 3, 2] 4 = .err "填充数据不一致" := by decide
example : pkcs7Unpad [1, 2, 3, 0] 4 = .err "非法填充数据" := by decide

/-! ## AES primitive (Go `crypto/aes`, FIPS-197)

The Go library hands encryption to the platform cipher primitive
`aes.NewCipher(key).Encrypt/Decrypt`; we embed that primitive directly from
FIPS-197 so that the end-to-end facade claims can be settled on concrete
values.  A 16-byte block is a flat list `b0..b15`; state byte `s[r][c]` is
element `4*c + r`. -/

def sboxTable : List Nat :=[
  99, 124, 119, 123, 242, 107, 111, 197, 48, 1, 103, 43, 254, 215, 171, 118,
  202, 130, 201, 125, 250, 89, 71, 240, 173, 212, 162, 175, 156, 164, 114, 192,
  183, 253, 147, 38, 54, 63, 247, 204, 52, 165, 229, 241, 113, 216, 49, 21,
  4, 199, 35, 195, 24, 150, 5, 154, 7, 18, 128, 226, 235, 39, 178, 117,
  9, 131, 44, 26, 27, 110, 90, 160, 82, 59, 214, 179, 41, 227, 47, 132,
  83, 209, 0, 237, 32, 252, 177, 91, 106, 203, 190, 57, 74, 76, 88, 207,
  208, 239, 170, 251, 67, 77, 51, 133, 69, 249, 2, 127, 80, 60, 159, 168,
  81, 163, 64, 143, 146, 157, 56, 245, 188, 182, 218, 33, 16, 255, 243, 210,
  205, 12, 19, 236, 95, 151, 68, 23, 196, 167, 126, 61, 100, 93, 25, 115,
  96, 129, 79, 220, 34, 42, 144, 136, 70, 238, 184, 20, 222, 94, 11, 219,
  224, 50, 58, 10, 73, 6, 36, 92, 194, 211, 172, 98, 145, 149, 228, 121,
  231, 200, 55, 109, 141, 213, 78, 169, 108, 86, 244, 234, 101, 122, 174, 8,
  186, 120, 37, 46, 28, 166, 180, 198, 232, 221, 116, 31, 75, 189, 139, 138,
  112, 62, 181, 102, 72, 3, 246, 14, 97, 53, 87, 185, 134, 193, 29, 158,
  225, 248, 152, 17, 105, 217, 142, 148, 155, 30, 135, 233, 206, 85, 40, 223,
  140, 161, 137, 13, 191, 230, 66, 104, 65, 153, 45, 15, 176, 84, 187, 22]

def invSboxTable : List Nat :=[
  82, 9, 106, 213, 48, 54, 165, 56, 191, 64, 163, 158, 129, 243, 215, 251,
  124, 227, 57, 130, 155, 47, 255, 135, 52, 142, 67, 68, 196, 222, 233, 203,
  84, 123, 148, 50, 166, 194, 35, 61, 238, 76, 149, 11, 66, 250, 195, 78,
  8, 46, 161, 102, 40, 217, 36, 178, 118, 91, 162, 73, 109, 139, 209, 37,
  114, 248, 246, 100, 134, 104, 152, 22, 212, 164, 92, 204, 93, 101, 182, 146,
  108, 112, 72, 80, 253, 237, 185, 218, 94, 21, 70, 87, 167, 141, 157, 132,
  144, 216, 171, 0, 140, 188, 211, 10, 247, 228, 88, 5, 184, 179, 69, 6,
  208, 44, 30, 143, 202, 63, 15, 2, 193, 175, 189, 3, 1, 19, 138, 107,
  58, 145, 17, 65, 79, 103, 220, 234, 151, 242, 207, 206, 240, 180, 230, 115,
  150, 172, 116, 34, 231, 173, 53, 133, 226, 249, 55, 232, 28, 117, 223, 110,
  71, 241, 26, 113, 29, 41, 197, 137, 111, 183, 98, 14, 170, 24, 190, 27,
  252, 86, 62, 75, 198, 210, 121, 32, 154, 219, 192, 254, 120, 205, 90, 244,
  31, 221, 168, 51, 136, 7, 199, 49, 177, 18, 16, 89, 39, 128, 236, 95,
  96, 81, 127, 169, 25, 181, 74, 13, 45, 229, 122, 159, 147, 201, 156, 239,
  160, 224, 59, 77, 174, 42, 245, 176, 200, 235, 187, 60, 131, 83, 153, 97,
  23, 43, 4, 126, 186, 119, 214, 38, 225, 105, 20, 99, 85, 33, 12, 125]

def sSub (x : Nat) : Nat := sboxTable.getD x 0

def isSub (x : Nat) : Nat := invSboxTable.getD x 0

/-- GF(2^8) doubling (`xtime`), bytes stay below 256. -/
def xtime (x : Nat) : Nat := if x < 128 then 2 * x else Nat.xor (2 * x % 256) 27

def gm2 (x : Nat) : Nat := xtime x
def gm3 (x : Nat) : Nat := Nat.xor (xtime x) x
def gm9 (x : Nat) : Nat := Nat.xor (xtime (xtime (xtime x))) x
def gm11 (x : Nat) : Nat := Nat.xor (xtime (xtime (xtime x))) (Nat.xor (xtime x) x)
def gm13 (x : Nat) : Nat := Nat.xor (xtime (xtime (xtime x))) (Nat.xor (xtime (xtime x)) x)
def gm14 (x : Nat) : Nat :=
  Nat.xor (xtime (xtime (xtime x))) (Nat.xor (xtime (xtime x)) (xtime x))

/-- Reads the bytes of `l` at the positions in `idx`. -/
def permuteBytes (idx : List Nat) (l : List Nat) : List Nat :=
  idx.map (fun i => l.getD i 0)

def shiftRowsIdx : List Nat := [0, 5, 10, 15, 4, 9, 14, 3, 8, 13, 2, 7, 12, 1, 6, 11]

def invShiftRowsIdx : List Nat := [0, 13, 10, 7, 4, 1, 14, 11, 8, 5, 2, 15, 12, 9, 6, 3]

def mixCol : List Nat → List Nat
  | [a, b, c, d] =>
    [Nat.xor (gm2 a) (Nat.xor (gm3 b) (Nat.xor c d)),
     Nat.xor a (Nat.xor (gm2 b) (Nat.xor (gm3 c) d)),
     Nat.xor a (Nat.xor b (Nat.xor (gm2 c) (gm3 d))),
     Nat.xor (gm3 a) (Nat.xor b (Nat.xor c (gm2 d)))]
  | l => l

def invMixCol : List Nat → List Nat
  | [a, b, c, d] =>
    [Nat.xor (gm14 a) (Nat.xor (gm11 b) (Nat.xor (gm13 c) (gm9 d))),
     Nat.xor (gm9 a) (Nat.xor (gm14 b) (Nat.xor (gm11 c) (gm13 d))),
     Nat.xor (gm13 a) (Nat.xor (gm9 b) (Nat.xor (gm14 c) (gm11 d))),
     Nat.xor (gm11 a) (Nat.xor (gm13 b) (Nat.xor (gm9 c) (gm14 d)))]
  | l => l

def onColumns (f : List Nat → List Nat) (l : List Nat) : List Nat :=
  f (l.take 4) ++ f ((l.drop 4).take 4) ++ f ((l.drop 8).take 4) ++ f (l.drop 12)

def rotWord : List Nat → List Nat
  | [a, b, c, d] => [b, c, d, a]
  | l => l

def rconTable : List Nat := [1, 2, 4, 8, 16, 32, 64, 128, 27, 54, 108, 216, 171, 77]

/-- One step of the FIPS-197 key-expansion loop, appending word `i = ws.length`. -/
def ksStep (nk : Nat) (ws : List (List Nat)) : List (List Nat) :=
  let i := ws.length
  let temp := ws.getLastD []
  let temp2 :=
    if i % nk = 0 then
      zipXor ((rotWord temp).map sSub) [rconTable.getD (i / nk - 1) 0, 0, 0, 0]
    else if 6 < nk ∧ i % nk = 4 then temp.map sSub
    else temp
  ws ++ [zipXor (ws.getD (i - nk) []) temp2]

def ksLoop (nk : Nat) : Nat → List (List Nat) → List (List Nat)
  | 0, ws => ws
  | n + 1, ws => ksLoop nk n (ksStep nk ws)

def chunk4 : Nat → List Nat → List (List Nat)
  | 0, _ => []
  | _ + 1, [] => []
  | n + 1, l => l.take 4 :: chunk4 n (l.drop 4)

/-- FIPS-197 key expansion; returns `4*(Nr+1)` four-byte words. -/
def expandKey (key : List Nat) : List (List Nat) :=
  let nk := key.length / 4
  let nr := nk + 6
  ksLoop nk (4 * (nr + 1) - nk) (chunk4 key.length key)

def roundKey (ws : List (List Nat)) (r : Nat) : List Nat :=
  ((ws.drop (4 * r)).take 4).flatten

/-- FIPS-197 `Cipher` on one 16-byte block. -/
def aesEncryptBlock (key : List Nat) (blk : List Nat) : List Nat :=
  let ws := expandKey key
  let nr := key.length / 4 + 6
  let s0 := zipXor blk (roundKey ws 0)
  let smid := (List.range (nr - 1)).foldl
    (fun s r =>
      zipXor (onColumns mixCol (permuteBytes shiftRowsIdx (s.map sSub))) (roundKey ws (r + 1)))
    s0
  zipXor (permuteBytes shiftRowsIdx (smid.map sSub)) (roundKey ws nr)

/-- FIPS-197 `InvCipher` on one 16-byte block. -/
def aesDecryptBlock (key : List Nat) (blk : List Nat) : List Nat :=
  let ws := expandKey key
  let nr := key.length / 4 + 6
  let s0 := zipXor blk (roundKey ws nr)
  let smid := (List.range (nr - 1)).foldl
    (fun s i =>
      onColumns invMixCol (zipXor ((permuteBytes invShiftRowsIdx s).map isSub) (roundKey ws (nr - 1 - i))))
    s0
  zipXor ((permuteBytes invShiftRowsIdx smid).map isSub) (roundKey ws 0)

/-- Model of Go's `cipher.Block`: a block primitive with its block size. -/
structure Block where
  blockSize : Nat
  encryptB : List Nat → List Nat
  decryptB : List Nat → List Nat

def aesGoBlock (key : List Nat) : Block :=
  { blockSize := 16, encryptB := aesEncryptBlock key, decryptB := aesDecryptBlock key }

/-- Model of `aes.NewCipher`. -/
def aesNewCipher (key : List Nat) : GoResult Block :=
  if key.length = 16 ∨ key.length = 24 ∨ key.length = 32 then .ok (aesGoBlock key)
  else .err "crypto/aes: invalid key size"

-- FIPS-197 Appendix C.1 test vector (AES-128).
example :
    aesEncryptBlock
      [0, 1, 2, 3, 4, 5, 6, 7, 8, 9, 10, 11, 12, 13, 14, 15]
      [0, 17, 34, 51, 68, 85, 102, 119, 136, 153, 170, 187, 204, 221, 238, 255] =
      [105, 196, 224, 216, 106, 123, 4, 48, 216, 205, 183, 128, 112, 180, 197, 90] := by
  decide

example :
    aesDecryptBlock
      [0, 1, 2, 3, 4, 5, 6, 7, 8, 9, 10, 11, 12, 13, 14, 15]
      [105, 196, 224, 216, 106, 123, 4, 48, 216, 205, 183, 128, 112, 180, 197, 90] =
      [0, 17, 34, 51, 68, 85, 102, 119, 136, 153, 170, 187, 204, 221, 238, 255] := by
  decide

/-! ## Encoding strategy (`encoding.go`)

The claims exercise the `Base64Encoding` (standard alphabet, padded) and
`NoEncoding` instances; both are embedded.  Encoded text is kept as the list
of ASCII byte values Go's `[]byte` would hold. -/

/-- Standard Base64 alphabet as ASCII byte values. -/
def b64Alphabet : List Nat :=
  (List.range 26).map (· + 65) ++ (List.range 26).map (· + 97) ++
  (List.range 10).map (· + 48) ++ [43, 47]

def b64Char (n : Nat) : Nat := b64Alphabet.getD n 0

/-- `base64.StdEncoding.Encode`, processing three input bytes per step
(`fuel` bounds the recursion; callers pass the input length). -/
def b64EncodeF : Nat → List Nat → List Nat
  | _, [] => []
  | 0, _ => []
  | _ + 1, [a] => [b64Char (a / 4), b64Char (a % 4 * 16), 61, 61]
  | _ + 1, [a, b] =>
    [b64Char (a / 4), b64Char (a % 4 * 16 + b / 16), b64Char (b % 16 * 4), 61]
  | f + 1, a :: b :: c :: rest =>
    b64Char (a / 4) :: b64Char (a % 4 * 16 + b / 16) ::
    b64Char (b % 16 * 4 + c / 64) :: b64Char (c % 64) :: b64EncodeF f rest

def base64Encode (l : List Nat) : List Nat := b64EncodeF l.length l

/-- Value of one Base64 alphabet character, `none` for foreign characters. -/
def b64Val (c : Nat) : Option Nat :=
  if 65 ≤ c ∧ c ≤ 90 then some (c - 65)
  else if 97 ≤ c ∧ c ≤ 122 then some (c - 71)
  else if 48 ≤ c ∧ c ≤ 57 then some (c + 4)
  else if c = 43 then some 62
  else if c = 47 then some 63
  else none

/-- `base64.StdEncoding.Decode`: four characters per step, `=` padding only in
a final group. -/
def b64DecodeF : Nat → List Nat → GoResult (List Nat)
  | _, [] => .ok []
  | 0, _ => .err "illegal base64 data"
  | f + 1, c1 :: c2 :: c3 :: c4 :: rest =>
    match b64Val c1, b64Val c2 with
    | some v1, some v2 =>
      if c3 = 61 ∧ c4 = 61 ∧ rest = [] then .ok [v1 * 4 + v2 / 16]
      else
        match b64Val c3 with
        | some v3 =>
          if c4 = 61 ∧ rest = [] then .ok [v1 * 4 + v2 / 16, v2 % 16 * 16 + v3 / 4]
          else
            match b64Val c4 with
            | some v4 =>
              (b64DecodeF f rest).bind fun tail =>
                .ok ([v1 * 4 + v2 / 16, v2 % 16 * 16 + v3 / 4, v3 % 4 * 64 + v4] ++ tail)
            | none => .err "illegal base64 data"
        | none => .err "illegal base64 data"
    | _, _ => .err "illegal base64 data"
  | _ + 1, _ => .err "illegal base64 data"

def base64Decode (l : List Nat) : GoResult (List Nat) := b64DecodeF l.length l

/-- The encoding instances the library wires into symmetric facades. -/
inductive EncodingKind where
  | noEnc
  | b64
  deriving Repr, DecidableEq

def encodeBytes : EncodingKind → List Nat → GoResult (List Nat)
  | .noEnc, l => .ok l
  | .b64, l => .ok (base64Encode l)

def decodeBytes : EncodingKind → List Nat → GoResult (List Nat)
  | .noEnc, l => .ok l
  | .b64, l => (base64Decode l).wrap "Base64解码失败"

example : base64Decode (base64Encode [1, 2, 3, 4, 250]) = .ok [1, 2, 3, 4, 250] := by decide

/-! ## Block-mode engine (`block_mode.go`, the pooled revision)

Mode objects carry their own `iv` slice (`Option` models a nil Go slice) and a
`keepIVSeparate` flag.  Byte buffers borrowed from the object pool are copied
out before return in Go, which is the identity in a pure model. -/

def obytes : Option (List Nat) → List Nat
  | none => []
  | some l => l

def olen (o : Option (List Nat)) : Nat := (obytes o).length

/-- Splits into `bs`-byte chunks, final chunk possibly short (`fuel` bounds the
recursion; callers pass the input length, which suffices whenever `bs > 0`). -/
def toChunksF (bs : Nat) : Nat → List Nat → List (List Nat)
  | _, [] => []
  | 0, _ => []
  | f + 1, l => l.take bs :: toChunksF bs f (l.drop bs)

def toChunks (bs : Nat) (l : List Nat) : List (List Nat) := toChunksF bs l.length l

/-- `ECBMode.Encrypt`'s chunk loop: Go slices `data[i : i+blockSize]` with no
length check, so a trailing short chunk is a runtime panic; a zero block size
never advances `i` (modelled by fuel exhaustion, likewise a panic). -/
def ecbChunksF (f : List Nat → List Nat) (bs : Nat) : Nat → List Nat → GoResult (List Nat)
  | _, [] => .ok []
  | 0, _ => .panicked "non-termination"
  | fuel + 1, l =>
    if l.length < bs then .panicked "runtime error: slice bounds out of range"
    else (ecbChunksF f bs fuel (l.drop bs)).bind fun rest => .ok (f (l.take bs) ++ rest)

/-- `ECBMode.Encrypt`. -/
def ecbModeEncrypt (B : Block) (data : List Nat) : GoResult (List Nat) :=
  ecbChunksF B.encryptB B.blockSize data.length data

/-- `ECBMode.Decrypt`: validates alignment, then the same chunk loop. -/
def ecbModeDecrypt (B : Block) (data : List Nat) : GoResult (List Nat) :=
  if data.length % B.blockSize ≠ 0 then .err "密文长度不是块大小的整数倍"
  else ecbChunksF B.decryptB B.blockSize data.length data

/-- CBC chaining: each ciphertext block is `E(prev ⊕ plaintextBlock)`. -/
def cbcEncChunks (f : List Nat → List Nat) (prev : List Nat) : List (List Nat) → List (List Nat)
  | [] => []
  | b :: rest =>
    let c := f (zipXor prev b)
    c :: cbcEncChunks f c rest

def cbcDecChunks (g : List Nat → List Nat) (prev : List Nat) : List (List Nat) → List (List Nat)
  | [] => []
  | c :: rest => zipXor prev (g c) :: cbcDecChunks g c rest

def cbcRawEncrypt (B : Block) (iv data : List Nat) : List Nat :=
  (cbcEncChunks B.encryptB iv (toChunks B.blockSize data)).flatten

def cbcRawDecrypt (B : Block) (iv data : List Nat) : List Nat :=
  (cbcDecChunks B.decryptB iv (toChunks B.blockSize data)).flatten

/-- `CBCMode.Encrypt` (pooled revision): validates the IV, runs CBC — Go's
`CryptBlocks` panics on non-aligned input — and prefixes the IV unless
`keepIVSeparate`. -/
def cbcModeEncrypt (B : Block) (iv : Option (List Nat)) (keep : Bool) (data : List Nat) :
    GoResult (List Nat) :=
  if olen iv ≠ B.blockSize then .err "IV长度必须等于块大小"
  else if data.length % B.blockSize ≠ 0 then .panicked "crypto/cipher: input not full blocks"
  else
    let enc := cbcRawEncrypt B (obytes iv) data
    if keep then .ok enc else .ok (obytes iv ++ enc)

/-- `CBCMode.Decrypt` (pooled revision): with a separate IV it decrypts the
whole input with the stored IV; otherwise it strips the first `blockSize`
bytes as the IV. -/
def cbcModeDecrypt (B : Block) (iv : Option (List Nat)) (keep : Bool) (data : List Nat) :
    GoResult (List Nat) :=
  if keep then
    if data.length % B.blockSize ≠ 0 then .err "密文长度不是块大小的整数倍"
    else if olen iv ≠ B.blockSize then
      .panicked "cipher.NewCBCDecrypter: IV length must equal block size"
    else .ok (cbcRawDecrypt B (obytes iv) data)
  else
    if data.length < B.blockSize then .err "密文太短，无法提取IV"
    else
      let ivb := data.take B.blockSize
      let cd := data.drop B.blockSize
      if cd.length % B.blockSize ≠ 0 then .err "密文长度不是块大小的整数倍"
      else .ok (cbcRawDecrypt B ivb cd)

/-- CFB: ciphertext block `c = p ⊕ E(register)`, register becomes `c`
(final short chunk uses a keystream truncated by `zipXor`). -/
def cfbEncChunks (f : List Nat → List Nat) (reg : List Nat) : List (List Nat) → List (List Nat)
  | [] => []
  | b :: rest =>
    let c := zipXor b (f reg)
    c :: cfbEncChunks f c rest

def cfbDecChunks (f : List Nat → List Nat) (reg : List Nat) : List (List Nat) → List (List Nat)
  | [] => []
  | c :: rest => zipXor c (f reg) :: cfbDecChunks f c rest

def cfbRawEncrypt (B : Block) (iv data : List Nat) : List Nat :=
  (cfbEncChunks B.encryptB iv (toChunks B.blockSize data)).flatten

def cfbRawDecrypt (B : Block) (iv data : List Nat) : List Nat :=
  (cfbDecChunks B.encryptB iv (toChunks B.blockSize data)).flatten

/-- OFB keystream: `s := E(s)` per block, keystream block is the new `s`. -/
def ofbChunks (f : List Nat → List Nat) (s : List Nat) : List (List Nat) → List (List Nat)
  | [] => []
  | b :: rest =>
    let s2 := f s
    zipXor b s2 :: ofbChunks f s2 rest

def ofbRaw (B : Block) (iv data : List Nat) : List Nat :=
  (ofbChunks B.encryptB iv (toChunks B.blockSize data)).flatten

/-- Big-endian counter increment on a byte list (Go CTR semantics). -/
def incBEAux : List Nat → List Nat
  | [] => []
  | x :: xs =>
    let y := (x + 1) % 256
    if y = 0 then y :: incBEAux xs else y :: xs

def incBE (l : List Nat) : List Nat := (incBEAux l.reverse).reverse

/-- CTR keystream: `E(ctr)` with a big-endian increment per block. -/
def ctrChunks (f : List Nat → List Nat) (ctr : List Nat) : List (List Nat) → List (List Nat)
  | [] => []
  | b :: rest => zipXor b (f ctr) :: ctrChunks f (incBE ctr) rest

def ctrRaw (B : Block) (iv data : List Nat) : List Nat :=
  (ctrChunks B.encryptB iv (toChunks B.blockSize data)).flatten

/-- Common shape of `CFBMode/OFBMode/CTRMode.Encrypt`: validate the IV, run the
stream transform, prefix the IV unless `keepIVSeparate`. -/
def streamModeEncrypt (core : List Nat → List Nat → List Nat) (B : Block)
    (iv : Option (List Nat)) (keep : Bool) (data : List Nat) : GoResult (List Nat) :=
  if olen iv ≠ B.blockSize then .err "IV长度必须等于块大小"
  else
    let enc := core (obytes iv) data
    if keep then .ok enc else .ok (obytes iv ++ enc)

/-- Common shape of `CFBMode/OFBMode/CTRMode.Decrypt`: with a separate IV the
Go stream constructor panics on a bad IV length; otherwise the first
`blockSize` bytes are stripped as the IV. -/
def streamModeDecrypt (core : List Nat → List Nat → List Nat) (panicMsg : String)
    (B : Block) (iv : Option (List Nat)) (keep : Bool) (data : List Nat) :
    GoResult (List Nat) :=
  if keep then
    if olen iv ≠ B.blockSize then .panicked panicMsg
    else .ok (core (obytes iv) data)
  else
    if data.length < B.blockSize then .err "密文太短，无法提取IV"
    else .ok (core (data.take B.blockSize) (data.drop B.blockSize))

def cfbModeEncrypt (B : Block) (iv : Option (List Nat)) (keep : Bool) (data : List Nat) :
    GoResult (List Nat) :=
  streamModeEncrypt (cfbRawEncrypt B) B iv keep data

def cfbModeDecrypt (B : Block) (iv : Option (List Nat)) (keep : Bool) (data : List Nat) :
    GoResult (List Nat) :=
  streamModeDecrypt (cfbRawDecrypt B) "cipher.newCFB: IV length must equal block size"
    B iv keep data

def ofbModeEncrypt (B : Block) (iv : Option (List Nat)) (keep : Bool) (data : List Nat) :
    GoResult (List Nat) :=
  streamModeEncrypt (ofbRaw B) B iv keep data

def ofbModeDecrypt (B : Block) (iv : Option (List Nat)) (keep : Bool) (data : List Nat) :
    GoResult (List Nat) :=
  streamModeDecrypt (ofbRaw B) "cipher.NewOFB: IV length must equal block size"
    B iv keep data

def ctrModeEncrypt (B : Block) (iv : Option (List Nat)) (keep : Bool) (data : List Nat) :
    GoResult (List Nat) :=
  streamModeEncrypt (ctrRaw B) B iv keep data

def ctrModeDecrypt (B : Block) (iv : Option (List Nat)) (keep : Bool) (data : List Nat) :
    GoResult (List Nat) :=
  streamModeDecrypt (ctrRaw B) "cipher.NewCTR: IV length must equal block size"
    B iv keep data

/-! ## GCM mode (`GCMMode`, pooled revision)

The AEAD produced by Go's `cipher.NewGCM` is an external primitive; it is
modelled as a structure whose `seal` returns ciphertext-plus-tag and whose
`aeadOpen` authenticates and either recovers the plaintext or fails. -/

structure AEAD where
  nonceSize : Nat
  sealA : List Nat → List Nat → List Nat
  aeadOpen : List Nat → List Nat → Option (List Nat)

/-- `GCMMode.Encrypt`: draws a fresh random nonce, stores a copy in the mode
object, and returns `nonce ++ seal nonce data` (`gcm.Seal(nonce, nonce, data,
nil)` appends to its first argument).  The previously stored nonce
`storedNonce` is never read.  Returns the result together with the new stored
nonce. -/
def gcmModeEncrypt (A : AEAD) (rnd : List Nat) (storedNonce : Option (List Nat))
    (data : List Nat) : GoResult (List Nat) × Option (List Nat) :=
  let n := rnd.take A.nonceSize
  (.ok (n ++ A.sealA n data), some n)

/-- `GCMMode.Decrypt`: strips the nonce, then calls
`GetBuffer(len(ciphertext) - 16)`; when the remainder is shorter than the
16-byte tag this buffer size is negative and Go panics (`buf[:size]` with a
negative bound) before `gcm.Open` runs; otherwise it authenticates and
decrypts. -/
def gcmModeDecrypt (A : AEAD) (data : List Nat) : GoResult (List Nat) :=
  if data.length < A.nonceSize then .err "密文太短，无法提取nonce"
  else
    let n := data.take A.nonceSize
    let ct := data.drop A.nonceSize
    if ct.length < 16 then .panicked "runtime error: slice bounds out of range"
    else
      match A.aeadOpen n ct with
      | some p => .ok p
      | none => .err "GCM解密失败，可能是数据被篡改: cipher: message authentication failed"

/-! ## Symmetric facade (`symmetric.go`, `factory.go`, `chain.go`)

`SymmetricEncryptor` owns key, facade-level `iv`, block-mode object, padding
and encoding.  The mode object's own `iv`/`keepIVSeparate` live inside the
`BM` value — they are distinct from the facade's `iv` field, exactly as in Go.
The platform cipher constructor selected by the algorithm switch
(`aes.NewCipher`, `des.NewCipher`, ...) and `cipher.NewGCM` are passed as the
`Prims` record; AES claims instantiate it with the embedded FIPS-197 cipher. -/

inductive PaddingKind where
  | noPad
  | pkcs7
  | zeroPad
  deriving Repr, DecidableEq

/-- `NoPadding.Pad`. -/
def noPadPad (data : List Nat) (blockSize : Nat) : GoResult (List Nat) :=
  if data.length % blockSize ≠ 0 then .err "数据长度必须是块大小的整数倍" else .ok data

/-- `ZeroPadding.Pad`. -/
def zeroPadPad (data : List Nat) (blockSize : Nat) : GoResult (List Nat) :=
  if blockSize = 0 then .err "块大小必须大于0"
  else .ok (data ++ List.replicate (blockSize - data.length % blockSize) 0)

/-- `ZeroPadding.Unpad`: strips trailing zero bytes. -/
def zeroPadUnpad (data : List Nat) (blockSize : Nat) : GoResult (List Nat) :=
  if blockSize = 0 then .err "块大小必须大于0"
  else if data.length = 0 then .err "数据长度为0"
  else if data.length % blockSize ≠ 0 then .err "数据长度不是块大小的整数倍"
  else .ok ((data.reverse.dropWhile (fun b => b = 0)).reverse)

def padPad : PaddingKind → List Nat → Nat → GoResult (List Nat)
  | .noPad, d, bs => noPadPad d bs
  | .pkcs7, d, bs => pkcs7Pad d bs
  | .zeroPad, d, bs => zeroPadPad d bs

def padUnpad : PaddingKind → List Nat → Nat → GoResult (List Nat)
  | .noPad, d, _ => .ok d
  | .pkcs7, d, bs => pkcs7Unpad d bs
  | .zeroPad, d, bs => zeroPadUnpad d bs

/-- The block-mode object held by a facade: constructor-specific fields are the
mode's own `iv` (resp. stored GCM nonce) and `keepIVSeparate` flag. -/
inductive BM where
  | ecb
  | cbc (iv : Option (List Nat)) (keep : Bool)
  | cfb (iv : Option (List Nat)) (keep : Bool)
  | ofb (iv : Option (List Nat)) (keep : Bool)
  | ctr (iv : Option (List Nat)) (keep : Bool)
  | gcm (nonce : Option (List Nat))
  deriving Repr, DecidableEq

/-- `NeedsIV` per mode. -/
def bmNeedsIV : BM → Bool
  | .cbc _ _ => true
  | .cfb _ _ => true
  | .ofb _ _ => true
  | .ctr _ _ => true
  | _ => false

/-- External platform primitives: the algorithm's block-cipher constructor and
`cipher.NewGCM`. -/
structure Prims where
  mkCipher : List Nat → GoResult Block
  mkGCM : Block → GoResult AEAD

/-- `BlockMode.Encrypt` dispatch; returns the possibly-updated mode object
(only GCM stores its fresh nonce). -/
def bmEncrypt (p : Prims) (rnd : List Nat) (B : Block) (bm : BM) (data : List Nat) :
    GoResult (List Nat) × BM :=
  match bm with
  | .ecb => (ecbModeEncrypt B data, .ecb)
  | .cbc iv keep => (cbcModeEncrypt B iv keep data, .cbc iv keep)
  | .cfb iv keep => (cfbModeEncrypt B iv keep data, .cfb iv keep)
  | .ofb iv keep => (ofbModeEncrypt B iv keep data, .ofb iv keep)
  | .ctr iv keep => (ctrModeEncrypt B iv keep data, .ctr iv keep)
  | .gcm nonce =>
    match p.mkGCM B with
    | .ok A =>
      let r := gcmModeEncrypt A rnd nonce data
      (r.1, .gcm r.2)
    | .err e => (.err ("创建GCM模式失败: " ++ e), .gcm nonce)
    | .panicked e => (.panicked e, .gcm nonce)

/-- `BlockMode.Decrypt` dispatch (no mode-object mutation on decrypt). -/
def bmDecrypt (p : Prims) (B : Block) (bm : BM) (data : List Nat) : GoResult (List Nat) :=
  match bm with
  | .ecb => ecbModeDecrypt B data
  | .cbc iv keep => cbcModeDecrypt B iv keep data
  | .cfb iv keep => cfbModeDecrypt B iv keep data
  | .ofb iv keep => ofbModeDecrypt B iv keep data
  | .ctr iv keep => ctrModeDecrypt B iv keep data
  | .gcm _ =>
    match p.mkGCM B with
    | .ok A => gcmModeDecrypt A data
    | .err e => .err ("创建GCM模式失败: " ++ e)
    | .panicked e => .panicked e

/-- `SymmetricEncryptor` (the facade `AESEncryptor`/`DESEncryptor`/... embed). -/
structure SymEnc where
  key : List Nat
  iv : Option (List Nat)
  blockMode : BM
  padding : PaddingKind
  encoding : EncodingKind
  deriving Repr, DecidableEq

/-- Steps 3-5 of `SymmetricEncryptor.Encrypt` once the IV is prepared:
pad, mode-encrypt, encode.  State mutations (the mode object) persist even
when a later step fails, as they do through Go pointers. -/
def symEncryptSteps (p : Prims) (rnd : List Nat) (B : Block) (s : SymEnc) (pt : List Nat) :
    GoResult (List Nat) × SymEnc :=
  match padPad s.padding pt B.blockSize with
  | .err e => (.err ("填充数据失败: " ++ e), s)
  | .panicked e => (.panicked e, s)
  | .ok padded =>
    let r := bmEncrypt p rnd B s.blockMode padded
    (match r.1 with
     | .err e => .err ("加密数据失败: " ++ e)
     | .panicked e => .panicked e
     | .ok enc =>
       match encodeBytes s.encoding enc with
       | .ok out => .ok out
       | .err e => .err e
       | .panicked e => .panicked e,
     { s with blockMode := r.2 })

/-- `SymmetricEncryptor.Encrypt`: creates the cipher, lazily generates the
facade IV when the mode needs one and none is stored (note: this writes the
facade's `iv` field only, never the mode object's own `iv`), then pads,
mode-encrypts and encodes. -/
def symEncrypt (p : Prims) (rnd : List Nat) (s : SymEnc) (pt : List Nat) :
    GoResult (List Nat) × SymEnc :=
  match p.mkCipher s.key with
  | .err e => (.err ("创建密码块失败: " ++ e), s)
  | .panicked e => (.panicked e, s)
  | .ok B =>
    if bmNeedsIV s.blockMode then
      match s.iv with
      | none => symEncryptSteps p rnd B { s with iv := some (rnd.take B.blockSize) } pt
      | some v =>
        if v.length ≠ B.blockSize then (.err "IV长度不正确", s)
        else symEncryptSteps p rnd B s pt
    else symEncryptSteps p rnd B s pt

/-- `SymmetricEncryptor.Decrypt`: decode, create cipher, mode-decrypt, unpad. -/
def symDecrypt (p : Prims) (s : SymEnc) (ct : List Nat) : GoResult (List Nat) :=
  match decodeBytes s.encoding ct with
  | .err e => .err ("解码数据失败: " ++ e)
  | .panicked e => .panicked e
  | .ok decoded =>
    match p.mkCipher s.key with
    | .err e => .err ("创建密码块失败: " ++ e)
    | .panicked e => .panicked e
    | .ok B =>
      match bmDecrypt p B s.blockMode decoded with
      | .err e => .err ("解密数据失败: " ++ e)
      | .panicked e => .panicked e
      | .ok dec => padUnpad s.padding dec B.blockSize

/-- `NewAES` (`factory.go`): validates the key length (16/24/32), sets the CBC
default mode — note the fresh mode object carries a *nil* iv — PKCS7 padding,
Base64 encoding, and eagerly fills the facade's `iv` with 16 random bytes. -/
def newAES (key : List Nat) (rnd : List Nat) : GoResult SymEnc :=
  if key.length = 16 ∨ key.length = 24 ∨ key.length = 32 then
    .ok { key := key, iv := some (rnd.take 16), blockMode := .cbc none false,
          padding := .pkcs7, encoding := .b64 }
  else .err "AES密钥长度必须是16、24或32字节"

/-- `MustNewAES` (`must_factory.go`): panics exactly when `NewAES` errors. -/
def mustNewAES (key : List Nat) (rnd : List Nat) : GoResult SymEnc :=
  match newAES key rnd with
  | .ok s => .ok s
  | .err e => .panicked e
  | .panicked e => .panicked e

/-- `NewDES`: requires an 8-byte key; 8-byte block, hence an 8-byte IV. -/
def newDES (key : List Nat) (rnd : List Nat) : GoResult SymEnc :=
  if key.length = 8 then
    .ok { key := key, iv := some (rnd.take 8), blockMode := .cbc none false,
          padding := .pkcs7, encoding := .b64 }
  else .err "DES密钥长度必须是8字节"

/-- `New3DES`: requires a 24-byte key; 8-byte block, hence an 8-byte IV. -/
def new3DES (key : List Nat) (rnd : List Nat) : GoResult SymEnc :=
  if key.length = 24 then
    .ok { key := key, iv := some (rnd.take 8), blockMode := .cbc none false,
          padding := .pkcs7, encoding := .b64 }
  else .err "3DES密钥长度必须是24字节"

/-- `SM4Encryptor` (`sm4.go`): a self-contained facade with its own mode enum;
only the fields the claims touch are carried. -/
structure Sm4Enc where
  key : List Nat
  iv : Option (List Nat)
  padding : PaddingKind
  encoding : EncodingKind
  deriving Repr, DecidableEq

/-- `NewSM4`: requires a 16-byte key; 16-byte block and IV. -/
def newSM4 (key : List Nat) (rnd : List Nat) : GoResult Sm4Enc :=
  if key.length = 16 then
    .ok { key := key, iv := some (rnd.take 16), padding := .pkcs7, encoding := .b64 }
  else .err "SM4密钥长度必须是16字节"

/-- `SM4Encryptor.WithIV` (`sm4.go`): panics on any IV whose length is not
`sm4.BlockSize` (16); otherwise stores a defensive copy (the copy is the
identity in a pure model). -/
def sm4WithIV (iv : List Nat) (s : Sm4Enc) : GoResult Sm4Enc :=
  if iv.length ≠ 16 then .panicked "SM4 IV长度必须是16字节"
  else .ok { s with iv := some iv }

/-- `InitBlockMode` (`block_utils.go`): for IV-requiring modes whose own iv is
nil or of the wrong length, installs a fresh random IV (keeping the
`keepIVSeparate` flag); otherwise returns the mode unchanged.  `io.ReadFull`
is modelled as succeeding, so the discarded error path never fires. -/
def initBlockMode (rnd : List Nat) (bm : BM) (B : Block) : BM :=
  match bm with
  | .cbc iv keep =>
    if iv ≠ none ∧ olen iv = B.blockSize then .cbc iv keep
    else .cbc (some (rnd.take B.blockSize)) keep
  | .cfb iv keep =>
    if iv ≠ none ∧ olen iv = B.blockSize then .cfb iv keep
    else .cfb (some (rnd.take B.blockSize)) keep
  | .ofb iv keep =>
    if iv ≠ none ∧ olen iv = B.blockSize then .ofb iv keep
    else .ofb (some (rnd.take B.blockSize)) keep
  | .ctr iv keep =>
    if iv ≠ none ∧ olen iv = B.blockSize then .ctr iv keep
    else .ctr (some (rnd.take B.blockSize)) keep
  | bm => bm

/-- `AESEncryptor.CBC` (`chain.go`): installs a fresh `CBCMode` carrying the
facade's `iv` and `keepIVSeparate = false`, then — when `aes.NewCipher`
succeeds — runs `InitBlockMode` over it. -/
def aesCBC (rnd : List Nat) (s : SymEnc) : SymEnc :=
  let bm := BM.cbc s.iv false
  match aesNewCipher s.key with
  | .ok B => { s with blockMode := initBlockMode rnd bm B }
  | _ => { s with blockMode := bm }

/-- `AESEncryptor.ECB`. -/
def aesECB (s : SymEnc) : SymEnc := { s with blockMode := .ecb }

/-- `AESEncryptor.GCM`. -/
def aesGCM (s : SymEnc) : SymEnc := { s with blockMode := .gcm none }

/-- `AESEncryptor.WithIV` (`chain.go`): stores the IV on the facade and, when
the current mode object needs an IV, overwrites that object's own iv and sets
its `keepIVSeparate` flag. -/
def aesWithIV (iv : List Nat) (s : SymEnc) : SymEnc :=
  let s2 := { s with iv := some iv }
  match s.blockMode with
  | .cbc _ _ => { s2 with blockMode := .cbc (some iv) true }
  | .cfb _ _ => { s2 with blockMode := .cfb (some iv) true }
  | .ofb _ _ => { s2 with blockMode := .ofb (some iv) true }
  | .ctr _ _ => { s2 with blockMode := .ctr (some iv) true }
  | bm => { s2 with blockMode := bm }

/-- `AESEncryptor.PKCS7`. -/
def aesPKCS7 (s : SymEnc) : SymEnc := { s with padding := .pkcs7 }

/-- `AESEncryptor.Base64`. -/
def aesBase64 (s : SymEnc) : SymEnc := { s with encoding := .b64 }

/-- AES instantiation of the platform primitives.  The claims never select GCM
through the facade, so `cipher.NewGCM` is left abstract here (GCM is settled
at engine level against the `AEAD` interface). -/
def aesPrims : Prims :=
  { mkCipher := aesNewCipher, mkGCM := fun _ => .err "cipher.NewGCM not instantiated" }

/-- ASCII byte values of a string literal. -/
def strBytes (s : String) : List Nat := s.data.map Char.toNat

/-! ## Claim C1 -/

def c1Key : List Nat := strBytes "0123456789abcdef"

def c1IV : List Nat := strBytes "abcdefghijklmnop"

def c1PT : List Nat := strBytes "123456"

/-- The C1 scenario: build the facade with `NewAES`, chain
`CBC().WithIV(iv).PKCS7().Base64()`, encrypt the plaintext twice threading the
facade state, then decrypt the first ciphertext.  The three random streams
fed to the two `Encrypt` calls and the constructor differ, so agreement of
the two ciphertexts cannot come from the randomness. -/
def c1Run : GoResult (List Nat × List Nat × GoResult (List Nat)) :=
  (newAES c1Key (List.replicate 16 0)).bind fun s0 =>
    let st := aesBase64 (aesPKCS7 (aesWithIV c1IV (aesCBC [] s0)))
    let r1 := symEncrypt aesPrims (List.replicate 32 7) st c1PT
    r1.1.bind fun out1 =>
      let r2 := symEncrypt aesPrims (List.replicate 32 201) r1.2 c1PT
      r2.1.bind fun out2 =>
        .ok (out1, out2, symDecrypt aesPrims r2.2 out1)

/-- **C1**: with AES key `"0123456789abcdef"`, caller-supplied IV
`"abcdefghijklmnop"` (`WithIV` after `CBC()`), PKCS7 padding and Base64
encoding, encrypting `"123456"` twice yields the same Base64 text (no IV
prefix is embedded, the output is deterministic), and decrypting it with the
same configuration returns `"123456"`. -/
theorem claim_C1 :
    c1Run = .ok (strBytes "kBeDY+CEdHv73eBspJFNBg==",
      strBytes "kBeDY+CEdHv73eBspJFNBg==", .ok c1PT) := by
  decide

/-! ## Claim C5 -/

/-- A stand-in for the AEAD `cipher.NewGCM(aesBlock)` returns: 12-byte nonces,
16-byte tag.  The decrypt path under scrutiny only reads `nonceSize`. -/
def demoAEAD : AEAD :=
  { nonceSize := 12,
    sealA := fun n d => d ++ n ++ List.replicate 4 0,
    aeadOpen := fun n c =>
      if c.drop (c.length - 16) = n ++ List.replicate 4 0 then some (c.take (c.length - 16))
      else none }

/-- **C5** (code bug): the claim says GCM `Decrypt` fails with an
`AuthenticationFailure`-style error whenever the tag cannot verify.  But for
any input of length in `[nonceSize, nonceSize+16)` — e.g. 20 bytes with the
12-byte nonce AEAD — the Go code computes `GetBuffer(len(ciphertext)-16)`
with a negative size and panics before `gcm.Open` can return its
authentication error.  Below the nonce size the typed error does surface,
and on encrypt the output really is the fresh random nonce (the first
`nonceSize` random bytes) prefixed to the sealed data, independent of any
stored nonce — those parts of the claim hold. -/
theorem claim_C5_panic :
    gcmModeDecrypt demoAEAD (List.range 20) = .panicked "runtime error: slice bounds out of range"
    ∧ gcmModeDecrypt demoAEAD (List.range 5) = .err "密文太短，无法提取nonce"
    ∧ gcmModeEncrypt demoAEAD (List.range 30) (some (List.replicate 12 1)) [5, 6] =
        (.ok ((List.range 30).take 12 ++ demoAEAD.sealA ((List.range 30).take 12) [5, 6]),
         some ((List.range 30).take 12))
    ∧ gcmModeEncrypt demoAEAD (List.range 30) none [5, 6] =
        gcmModeEncrypt demoAEAD (List.range 30) (some (List.replicate 12 1)) [5, 6] := by
  refine ⟨by decide, by decide, rfl, rfl⟩

/-! ## Claim C10 -/

/-- **C10**: `SM4Encryptor.WithIV` panics (it does not return a typed error)
on every IV whose length differs from 16 bytes, and stores the IV on success. -/
theorem claim_C10 :
    ∀ (iv : List Nat) (s : Sm4Enc),
      (iv.length ≠ 16 → sm4WithIV iv s = .panicked "SM4 IV长度必须是16字节") ∧
      (iv.length = 16 → sm4WithIV iv s = .ok { s with iv := some iv }) := by
  intro iv s
  constructor
  · intro h
    simp [sm4WithIV, h]
  · intro h
    simp [sm4WithIV, h]

def demoSm4 : Sm4Enc :=
  { key := List.replicate 16 0, iv := none, padding := .pkcs7, encoding := .b64 }

/-- Witness for C10 at a 3-byte and a 16-byte IV. -/
theorem claim_C10_witness :
    sm4WithIV [1, 2, 3] demoSm4 = .panicked "SM4 IV长度必须是16字节" ∧
    sm4WithIV (List.replicate 16 9) demoSm4 = .ok { demoSm4 with iv := some (List.replicate 16 9) } :=
  ⟨(claim_C10 [1, 2, 3] demoSm4).1 (by decide),
   (claim_C10 (List.replicate 16 9) demoSm4).2 (by decide)⟩

/-! ## Claim C8 -/

/-- **C8**: the symmetric constructors validate the key length before any
cryptographic operation — AES accepts exactly 16/24/32 bytes (so a 15-byte
key fails with the `InvalidKeyLength`-style error), DES exactly 8, 3DES
exactly 24, SM4 exactly 16 — and `MustNewAES` panics exactly when `NewAES`
returns an error, otherwise returning the same encryptor. -/
theorem claim_C8 :
    ∀ (key rnd : List Nat),
      ((newAES key rnd).isOk = true ↔ (key.length = 16 ∨ key.length = 24 ∨ key.length = 32)) ∧
      (¬(key.length = 16 ∨ key.length = 24 ∨ key.length = 32) →
        newAES key rnd = .err "AES密钥长度必须是16、24或32字节") ∧
      ((newDES key rnd).isOk = true ↔ key.length = 8) ∧
      ((new3DES key rnd).isOk = true ↔ key.length = 24) ∧
      ((newSM4 key rnd).isOk = true ↔ key.length = 16) ∧
      ((mustNewAES key rnd).isPanic = true ↔ (newAES key rnd).isErr = true) ∧
      ((newAES key rnd).isOk = true → mustNewAES key rnd = newAES key rnd) := by
  intro key rnd
  by_cases h : key.length = 16 ∨ key.length = 24 ∨ key.length = 32 <;>
    by_cases h8 : key.length = 8 <;>
      by_cases h24 : key.length = 24 <;>
        by_cases h16 : key.length = 16 <;>
          simp_all [newAES, newDES, new3DES, newSM4, mustNewAES,
            GoResult.isOk, GoResult.isErr, GoResult.isPanic]

/-- Witness for C8: a 15-byte AES key is rejected (and `MustNewAES` panics on
it), a 16-byte key is accepted and `MustNewAES` coincides with `NewAES`. -/
theorem claim_C8_witness :
    ((newAES (List.replicate 15 0) []).isOk = true ↔
      ((List.replicate 15 (0 : Nat)).length = 16 ∨
        (List.replicate 15 (0 : Nat)).length = 24 ∨
        (List.replicate 15 (0 : Nat)).length = 32)) ∧
    newAES (List.replicate 15 0) [] = .err "AES密钥长度必须是16、24或32字节" ∧
    mustNewAES (List.replicate 16 0) [] = newAES (List.replicate 16 0) [] :=
  ⟨(claim_C8 (List.replicate 15 0) []).1,
   (claim_C8 (List.replicate 15 0) []).2.1 (by decide),
   (claim_C8 (List.replicate 16 0) []).2.2.2.2.2.2 (by decide)⟩

/-! ## Claim C6 -/

/-- The facade state `NewAES` builds: CBC default mode with a *nil* mode-side
iv, PKCS7, Base64, and the given bytes as the facade IV. -/
def aesDefaultSym (key ivBytes : List Nat) : SymEnc :=
  { key := key, iv := some ivBytes, blockMode := .cbc none false,
    padding := .pkcs7, encoding := .b64 }

/-- **C6 counterexample**: the claim says the IV is absent at construction and
generated lazily on first `Encrypt`; but `NewAES` eagerly fills the facade IV
with the first 16 random bytes at construction time. -/
theorem claim_C6_counterexample :
    newAES c1Key (List.range 16) =
      .ok { key := c1Key, iv := some (List.range 16), blockMode := .cbc none false,
            padding := .pkcs7, encoding := .b64 } := by
  decide

theorem symEncryptSteps_iv (p : Prims) (rnd : List Nat) (B : Block) (s : SymEnc)
    (pt : List Nat) : ((symEncryptSteps p rnd B s pt).2).iv = s.iv := by
  unfold symEncryptSteps
  rcases padPad s.padding pt B.blockSize with v | e | e <;> simp

/-- **C6 amended**: `NewAES` generates the facade IV eagerly at construction
(filling it with the constructor's random draw); `Encrypt`'s lazy generation
fires only when the stored IV is nil (which `NewAES` never leaves it); and
once the IV is set — generated or supplied — every `Encrypt` call leaves it
unchanged until the caller explicitly replaces it. -/
theorem claim_C6_amended :
    ∀ (key rnd : List Nat) (s : SymEnc) (pt rnd2 v : List Nat),
      (key.length = 16 ∨ key.length = 24 ∨ key.length = 32 →
        newAES key rnd = .ok (aesDefaultSym key (rnd.take 16))) ∧
      (s.iv = none → bmNeedsIV s.blockMode = true →
        (s.key.length = 16 ∨ s.key.length = 24 ∨ s.key.length = 32) →
        ((symEncrypt aesPrims rnd2 s pt).2).iv = some (rnd2.take 16)) ∧
      (s.iv = some v → ((symEncrypt aesPrims rnd2 s pt).2).iv = some v) := by
  intro key rnd s pt rnd2 v
  refine ⟨fun h => by simp [newAES, aesDefaultSym, h], fun hnone hneeds hkey => ?_, fun hsome => ?_⟩
  · have hk : aesNewCipher s.key = .ok (aesGoBlock s.key) := by
      simp [aesNewCipher, hkey]
    simp [symEncrypt, aesPrims, hk, hneeds, hnone, symEncryptSteps_iv, aesGoBlock]
  · unfold symEncrypt
    rcases hc : aesNewCipher s.key with B | e | e <;> simp [aesPrims, hc] <;>
      try exact hsome
    by_cases hneeds : bmNeedsIV s.blockMode <;>
      simp [hneeds, hsome, symEncryptSteps_iv] <;> try exact hsome
    by_cases hlen : v.length = B.blockSize <;> simp [hlen, symEncryptSteps_iv] <;>
      exact hsome

def demoLazySym : SymEnc :=
  { key := List.replicate 16 3, iv := none, blockMode := .cbc none false,
    padding := .pkcs7, encoding := .b64 }

def demoSuppliedSym : SymEnc :=
  { key := List.replicate 16 3, iv := some [1, 2], blockMode := .cbc none false,
    padding := .pkcs7, encoding := .b64 }

/-- Witness for the amended C6 at concrete inputs: eager construction,
lazy fallback when the IV is nil, and reuse of a supplied IV. -/
theorem claim_C6_witness :
    newAES (List.replicate 16 1) (List.range 20) =
      .ok (aesDefaultSym (List.replicate 16 1) ((List.range 20).take 16)) ∧
    ((symEncrypt aesPrims (List.range 40) demoLazySym [9]).2).iv =
      some ((List.range 40).take 16) ∧
    ((symEncrypt aesPrims (List.range 40) demoSuppliedSym [9]).2).iv = some [1, 2] :=
  ⟨(claim_C6_amended (List.replicate 16 1) (List.range 20) demoLazySym [] [] []).1 (by decide),
   (claim_C6_amended [] [] demoLazySym [9] (List.range 40) []).2.1 (by decide) (by decide)
     (by decide),
   (claim_C6_amended [] [] demoSuppliedSym [9] (List.range 40) [1, 2]).2.2 (by decide)⟩

/-! ## Claim C9 -/

theorem aesCBC_blockMode_shape (rnd : List Nat) (s : SymEnc) :
    ∃ x, (aesCBC rnd s).blockMode = BM.cbc x false := by
  unfold aesCBC
  rcases aesNewCipher s.key with B | e | e <;> simp [initBlockMode]
  split
  · exact ⟨s.iv, rfl⟩
  · exact ⟨some (rnd.take B.blockSize), rfl⟩

def desGoBlock (dE dD : List Nat → List Nat) : Block :=
  { blockSize := 8, encryptB := dE, decryptB := dD }

/-- Model of `des.NewCipher`: the DES primitive is external (`crypto/des`);
only its key-length check (8 bytes) and 8-byte block size feed the facade
logic the claims exercise, so the block transforms are parameters. -/
def desNewCipher (dE dD : List Nat → List Nat) (key : List Nat) : GoResult Block :=
  if key.length = 8 then .ok (desGoBlock dE dD) else .err "crypto/des: invalid key size"

/-- `DESEncryptor.CBC` (`chain.go`): same shape as the AES facade — a fresh
`CBCMode` carrying the facade's iv and `keepIVSeparate = false`, then
`InitBlockMode` when `des.NewCipher` succeeds. -/
def desCBC (dE dD : List Nat → List Nat) (rnd : List Nat) (s : SymEnc) : SymEnc :=
  let bm := BM.cbc s.iv false
  match desNewCipher dE dD s.key with
  | .ok B => { s with blockMode := initBlockMode rnd bm B }
  | _ => { s with blockMode := bm }

/-- `DESEncryptor.WithIV` (`chain.go`): identical in shape to the AES
facade's — stores the IV and, when the current mode object needs an IV,
overwrites its iv and sets its `keepIVSeparate` flag. -/
def desWithIV (iv : List Nat) (s : SymEnc) : SymEnc :=
  let s2 := { s with iv := some iv }
  match s.blockMode with
  | .cbc _ _ => { s2 with blockMode := .cbc (some iv) true }
  | .cfb _ _ => { s2 with blockMode := .cfb (some iv) true }
  | .ofb _ _ => { s2 with blockMode := .ofb (some iv) true }
  | .ctr _ _ => { s2 with blockMode := .ctr (some iv) true }
  | bm => { s2 with blockMode := bm }

/-- `TripleDESEncryptor.CBC` (`triple_des.go`): just installs
`NewCBCMode(t.iv)` — no cipher call, no `InitBlockMode`. -/
def tripleDESCBC (s : SymEnc) : SymEnc := { s with blockMode := .cbc s.iv false }

/-- `TripleDESEncryptor.WithIV` (`triple_des.go`): stores the IV and updates
the mode object's own iv, but — unlike the AES/DES facades — never touches
`keepIVSeparate` (the flag is left as it was). -/
def tripleDESWithIV (iv : List Nat) (s : SymEnc) : SymEnc :=
  let s2 := { s with iv := some iv }
  match s.blockMode with
  | .cbc _ keep => { s2 with blockMode := .cbc (some iv) keep }
  | .cfb _ keep => { s2 with blockMode := .cfb (some iv) keep }
  | .ofb _ keep => { s2 with blockMode := .ofb (some iv) keep }
  | .ctr _ keep => { s2 with blockMode := .ctr (some iv) keep }
  | bm => { s2 with blockMode := bm }

def demo3DESSym : SymEnc :=
  { key := List.replicate 24 3, iv := some (List.replicate 8 1),
    blockMode := .cbc none false, padding := .pkcs7, encoding := .b64 }

/-- The identity block primitive on 8-byte blocks (the DES/3DES block size). -/
def idBlock8 : Block := { blockSize := 8, encryptB := fun b => b, decryptB := fun b => b }

/-- **C9 counterexample**: the claim asserts the order-sensitive
`keepIVSeparate` marking on the AES/DES/3DES facades, but on the 3DES facade
`WithIV` never sets the flag: with CBC already selected, `CBC()` followed by
`WithIV(iv)` leaves `keepIVSeparate = false`, and with that flag the engine
still embeds the IV as a ciphertext prefix instead of keeping it external. -/
theorem claim_C9_counterexample :
    (tripleDESWithIV (List.replicate 8 2) (tripleDESCBC demo3DESSym)).blockMode =
      .cbc (some (List.replicate 8 2)) false ∧
    cbcModeEncrypt idBlock8 (some (List.replicate 8 2)) false (List.replicate 8 0) =
      .ok (List.replicate 8 2 ++ cbcRawEncrypt idBlock8 (List.replicate 8 2) (List.replicate 8 0)) := by
  constructor
  · decide
  · decide

theorem desCBC_blockMode_shape (dE dD : List Nat → List Nat) (rnd : List Nat) (s : SymEnc) :
    ∃ x, (desCBC dE dD rnd s).blockMode = BM.cbc x false := by
  unfold desCBC
  rcases desNewCipher dE dD s.key with B | e | e <;> simp [initBlockMode]
  split
  · exact ⟨s.iv, rfl⟩
  · exact ⟨some (rnd.take B.blockSize), rfl⟩

/-- **C9 amended**: on the AES and DES facades the supplied-IV marking is
order-sensitive — `WithIV` then `CBC()` yields a fresh CBC mode object with
`keepIVSeparate = false` (IV embedded as a ciphertext prefix), while `CBC()`
then `WithIV` marks the existing mode object `keepIVSeparate = true` (IV
kept external).  On the 3DES facade `WithIV` updates the mode object's iv
but never sets `keepIVSeparate`, so both orders leave the flag `false` and
the IV is embedded either way.  The final conjunct spells out the wire
format the flag selects on any aligned input. -/
theorem claim_C9_amended :
    ∀ (s : SymEnc) (dE dD : List Nat → List Nat) (iv16 iv8 rnd rnd2 data k : List Nat),
      (iv16.length = 16 →
        (aesCBC rnd (aesWithIV iv16 s)).blockMode = .cbc (some iv16) false ∧
        (aesWithIV iv16 (aesCBC rnd2 s)).blockMode = .cbc (some iv16) true) ∧
      (iv8.length = 8 →
        (desCBC dE dD rnd (desWithIV iv8 s)).blockMode = .cbc (some iv8) false ∧
        (desWithIV iv8 (desCBC dE dD rnd2 s)).blockMode = .cbc (some iv8) true) ∧
      ((tripleDESCBC (tripleDESWithIV iv8 s)).blockMode = .cbc (some iv8) false ∧
       (tripleDESWithIV iv8 (tripleDESCBC s)).blockMode = .cbc (some iv8) false) ∧
      (iv16.length = 16 → data.length % 16 = 0 →
        cbcModeEncrypt (aesGoBlock k) (some iv16) false data =
          .ok (iv16 ++ cbcRawEncrypt (aesGoBlock k) iv16 data) ∧
        cbcModeEncrypt (aesGoBlock k) (some iv16) true data =
          .ok (cbcRawEncrypt (aesGoBlock k) iv16 data)) := by
  intro s dE dD iv16 iv8 rnd rnd2 data k
  refine ⟨fun hiv => ⟨?_, ?_⟩, fun hiv8 => ⟨?_, ?_⟩, ⟨?_, ?_⟩, fun hiv halign => ?_⟩
  · by_cases hk : s.key.length = 16 ∨ s.key.length = 24 ∨ s.key.length = 32
    · have hc : aesNewCipher s.key = .ok (aesGoBlock s.key) := by
        simp [aesNewCipher, hk]
      cases hbm : s.blockMode <;>
        simp_all [aesCBC, aesWithIV, initBlockMode, olen, obytes, aesGoBlock]
    · have hc : aesNewCipher s.key = .err "crypto/aes: invalid key size" := by
        simp [aesNewCipher, hk]
      cases hbm : s.blockMode <;>
        simp_all [aesCBC, aesWithIV, initBlockMode, olen, obytes, aesGoBlock]
  · obtain ⟨x, hx⟩ := aesCBC_blockMode_shape rnd2 s
    simp [aesWithIV, hx]
  · by_cases hk : s.key.length = 8
    · have hc : desNewCipher dE dD s.key = .ok (desGoBlock dE dD) := by
        simp [desNewCipher, hk]
      cases hbm : s.blockMode <;>
        simp_all [desCBC, desWithIV, initBlockMode, olen, obytes, desGoBlock]
    · have hc : desNewCipher dE dD s.key = .err "crypto/des: invalid key size" := by
        simp [desNewCipher, hk]
      cases hbm : s.blockMode <;>
        simp_all [desCBC, desWithIV, initBlockMode, olen, obytes, desGoBlock]
  · obtain ⟨x, hx⟩ := desCBC_blockMode_shape dE dD rnd2 s
    simp [desWithIV, hx]
  · cases hbm : s.blockMode <;> simp [tripleDESWithIV, tripleDESCBC, hbm]
  · simp [tripleDESCBC, tripleDESWithIV]
  · constructor <;>
      simp [cbcModeEncrypt, olen, obytes, hiv, halign, aesGoBlock]

def demoDESSym : SymEnc :=
  { key := List.replicate 8 4, iv := some (List.replicate 8 1),
    blockMode := .cbc none false, padding := .pkcs7, encoding := .b64 }

/-- Witness for the amended C9 on a concrete facade (8-byte key, so the DES
branch really runs `InitBlockMode`), concrete 16- and 8-byte IVs, identity
DES transforms and aligned plaintext. -/
theorem claim_C9_amended_witness :
    ((aesCBC [] (aesWithIV (List.range 16) demoDESSym)).blockMode =
       .cbc (some (List.range 16)) false ∧
     (aesWithIV (List.range 16) (aesCBC [] demoDESSym)).blockMode =
       .cbc (some (List.range 16)) true) ∧
    ((desCBC (fun b => b) (fun b => b) [] (desWithIV (List.replicate 8 7) demoDESSym)).blockMode =
       .cbc (some (List.replicate 8 7)) false ∧
     (desWithIV (List.replicate 8 7) (desCBC (fun b => b) (fun b => b) [] demoDESSym)).blockMode =
       .cbc (some (List.replicate 8 7)) true) ∧
    ((tripleDESCBC (tripleDESWithIV (List.replicate 8 7) demoDESSym)).blockMode =
       .cbc (some (List.replicate 8 7)) false ∧
     (tripleDESWithIV (List.replicate 8 7) (tripleDESCBC demoDESSym)).blockMode =
       .cbc (some (List.replicate 8 7)) false) ∧
    (cbcModeEncrypt (aesGoBlock c1Key) (some (List.range 16)) false (List.replicate 16 0) =
       .ok (List.range 16 ++ cbcRawEncrypt (aesGoBlock c1Key) (List.range 16) (List.replicate 16 0)) ∧
     cbcModeEncrypt (aesGoBlock c1Key) (some (List.range 16)) true (List.replicate 16 0) =
       .ok (cbcRawEncrypt (aesGoBlock c1Key) (List.range 16) (List.replicate 16 0))) :=
  have h := claim_C9_amended demoDESSym (fun b => b) (fun b => b) (List.range 16)
    (List.replicate 8 7) [] [] (List.replicate 16 0) c1Key
  ⟨h.1 (by decide), h.2.1 (by decide), h.2.2.1, h.2.2.2 (by decide) (by decide)⟩

/-! ## Claim C7 -/

/-- The identity block primitive on 2-byte blocks, used to exercise engine
code paths that do not depend on the cipher. -/
def idBlock2 : Block := { blockSize := 2, encryptB := fun b => b, decryptB := fun b => b }

/-- **C7 counterexample**: the claim says the ECB engine fails with a typed
error and never panics on unaligned input for both encrypt and decrypt; but
`ECBMode.Encrypt` has no length check and its chunk loop slices past the end
of the data, a runtime panic. -/
theorem claim_C7_counterexample :
    ecbModeEncrypt idBlock2 [0] = .panicked "runtime error: slice bounds out of range" := by
  decide

theorem ecbChunksF_aligned (f : List Nat → List Nat) (bs : Nat) (hbs : 0 < bs) :
    ∀ (fuel : Nat) (l : List Nat), l.length ≤ fuel → l.length % bs = 0 →
      ecbChunksF f bs fuel l = .ok ((toChunksF bs fuel l).map f).flatten := by
  intro fuel
  induction fuel with
  | zero =>
    intro l hl _
    have : l = [] := List.eq_nil_of_length_eq_zero (Nat.le_zero.mp hl)
    subst this
    rfl
  | succ n ih =>
    intro l hl halign
    cases l with
    | nil => rfl
    | cons x xs =>
      simp only [List.length_cons] at hl halign
      have hlen : bs ≤ xs.length + 1 := by
        by_contra hcon
        push_neg at hcon
        rw [Nat.mod_eq_of_lt hcon] at halign
        exact absurd halign (by simp)
      have halign2 : ((x :: xs).drop bs).length % bs = 0 := by
        simp only [List.length_drop, List.length_cons]
        rw [← Nat.mod_eq_sub_mod hlen]
        exact halign
      have hfuel2 : ((x :: xs).drop bs).length ≤ n := by
        simp only [List.length_drop, List.length_cons]
        omega
      have hnot : ¬((x :: xs).length < bs) := by
        simp only [List.length_cons]
        omega
      rw [ecbChunksF, if_neg hnot, ih _ hfuel2 halign2]
      all_goals simp [toChunksF, GoResult.bind]

theorem ecbChunksF_unaligned (f : List Nat → List Nat) (bs : Nat) (hbs : 0 < bs) :
    ∀ (fuel : Nat) (l : List Nat), l.length ≤ fuel → l.length % bs ≠ 0 →
      ecbChunksF f bs fuel l = .panicked "runtime error: slice bounds out of range" := by
  intro fuel
  induction fuel with
  | zero =>
    intro l hl halign
    have : l = [] := List.eq_nil_of_length_eq_zero (Nat.le_zero.mp hl)
    subst this
    simp at halign
  | succ n ih =>
    intro l hl halign
    cases l with
    | nil => simp at halign
    | cons x xs =>
      simp only [List.length_cons] at hl halign
      by_cases hlen : xs.length + 1 < bs
      · rw [ecbChunksF, if_pos (by simpa using hlen)]
        all_goals simp
      · push_neg at hlen
        have halign2 : ((x :: xs).drop bs).length % bs ≠ 0 := by
          simp only [List.length_drop, List.length_cons]
          rw [← Nat.mod_eq_sub_mod hlen]
          exact halign
        have hfuel2 : ((x :: xs).drop bs).length ≤ n := by
          simp only [List.length_drop, List.length_cons]
          omega
        rw [ecbChunksF, if_neg (by simpa using Nat.not_lt.mpr hlen), ih _ hfuel2 halign2]
        all_goals simp [GoResult.bind]

/-- **C7 amended**: on every input whose length is not a multiple of
`blockSize`, ECB `Decrypt` fails with the typed `InvalidLength`-style error,
but ECB `Encrypt` performs no length check and panics (out-of-range chunk
slicing); on aligned input both transform each `blockSize`-sized chunk
independently through the block primitive. -/
theorem claim_C7_amended (B : Block) (hbs : 0 < B.blockSize) (data : List Nat) :
    (data.length % B.blockSize ≠ 0 →
      ecbModeEncrypt B data = .panicked "runtime error: slice bounds out of range" ∧
      ecbModeDecrypt B data = .err "密文长度不是块大小的整数倍") ∧
    (data.length % B.blockSize = 0 →
      ecbModeEncrypt B data = .ok ((toChunks B.blockSize data).map B.encryptB).flatten ∧
      ecbModeDecrypt B data = .ok ((toChunks B.blockSize data).map B.decryptB).flatten) := by
  constructor
  · intro halign
    constructor
    · exact ecbChunksF_unaligned B.encryptB B.blockSize hbs data.length data le_rfl halign
    · simp [ecbModeDecrypt, halign]
  · intro halign
    constructor
    · exact ecbChunksF_aligned B.encryptB B.blockSize hbs data.length data le_rfl halign
    · simp only [ecbModeDecrypt, halign, if_neg (by simp : ¬(0 : Nat) ≠ 0)]
      exact ecbChunksF_aligned B.decryptB B.blockSize hbs data.length data le_rfl halign

/-- Witness for the amended C7 at the identity block on an unaligned and an
aligned input. -/
theorem claim_C7_witness :
    (ecbModeEncrypt idBlock2 [0, 1, 2] = .panicked "runtime error: slice bounds out of range" ∧
     ecbModeDecrypt idBlock2 [0, 1, 2] = .err "密文长度不是块大小的整数倍") ∧
    (ecbModeEncrypt idBlock2 [0, 1, 2, 3] =
      .ok ((toChunks idBlock2.blockSize [0, 1, 2, 3]).map idBlock2.encryptB).flatten ∧
     ecbModeDecrypt idBlock2 [0, 1, 2, 3] =
      .ok ((toChunks idBlock2.blockSize [0, 1, 2, 3]).map idBlock2.decryptB).flatten) :=
  ⟨(claim_C7_amended idBlock2 (by decide) [0, 1, 2]).1 (by decide),
   (claim_C7_amended idBlock2 (by decide) [0, 1, 2, 3]).2 (by decide)⟩

/-! ## Claim C3 -/

/-- **C3 counterexample**: the claim asserts `Unpad(Pad(p, bs), bs) = p` for
every `bs` in `(0, 256]`.  At `bs = 256` with aligned data the pad count is
256, whose byte conversion `byte(256)` is `0`: `Pad` appends 256 zero bytes
(not bytes of value `n`), and `Unpad` then rejects the zero padding byte, so
the round trip fails. -/
theorem claim_C3_counterexample :
    pkcs7Pad [] 256 = .ok (List.replicate 256 0) ∧
    pkcs7Unpad (List.replicate 256 0) 256 = .err "非法填充数据" := by
  constructor
  · decide
  · decide

theorem getLastD_append_replicate (p : List Nat) (n v : Nat) (hn : 1 ≤ n) :
    (p ++ List.replicate n v).getLastD 0 = v := by
  obtain ⟨m, rfl⟩ : ∃ m, n = m + 1 := ⟨n - 1, by omega⟩
  rw [List.replicate_succ', ← List.append_assoc]
  exact List.getLastD_concat _ _ _

/-- **C3 amended**: for `bs` in `(0, 256]`, `Pad(p, bs)` succeeds and appends
`n = bs - len(p) % bs` bytes of value `byte(n) = n % 256`, with `n` in
`[1, bs]`; the round trip `Unpad(Pad(p, bs), bs) = p` holds whenever
`n ≤ 255` — i.e. always, except for `bs = 256` on aligned data, where the
appended byte is `0` and `Unpad` rejects it.  Outside `(0, 256]`, `Pad` fails
with the `InvalidConfiguration`-style error. -/
theorem claim_C3_amended :
    ∀ (p : List Nat) (bs : Nat),
      (0 < bs → bs ≤ 256 →
        pkcs7Pad p bs =
          .ok (p ++ List.replicate (bs - p.length % bs) ((bs - p.length % bs) % 256)) ∧
        1 ≤ bs - p.length % bs ∧ bs - p.length % bs ≤ bs ∧
        (bs - p.length % bs ≤ 255 →
          pkcs7Unpad (p ++ List.replicate (bs - p.length % bs) (bs - p.length % bs)) bs =
            .ok p)) ∧
      (bs = 0 ∨ 256 < bs → (pkcs7Pad p bs).isErr = true) := by
  intro p bs
  constructor
  · intro hbs0 hbs256
    have hr : p.length % bs < bs := Nat.mod_lt _ hbs0
    refine ⟨by rw [pkcs7Pad, if_neg (by omega), if_neg (by omega)],
      by omega, by omega, fun hn255 => ?_⟩
    set n := bs - p.length % bs with hn
    have hn1 : 1 ≤ n := by omega
    have hlen : (p ++ List.replicate n n).length = p.length + n := by simp
    have halignN : (p.length + n) % bs = 0 := by
      have hq := Nat.div_add_mod p.length bs
      have hstep : p.length + n = bs * (p.length / bs) + bs := by omega
      rw [hstep, ← Nat.mul_succ]
      exact Nat.mul_mod_right _ _
    have hlast : (p ++ List.replicate n n).getLastD 0 = n :=
      getLastD_append_replicate p n n hn1
    have hdrop : (p ++ List.replicate n n).drop p.length = List.replicate n n :=
      List.drop_left p _
    have htake : (p ++ List.replicate n n).take p.length = p :=
      List.take_left p _
    have hsubN : p.length + n - n = p.length := by omega
    have hallN : ((p ++ List.replicate n n).drop (p.length + n - n)).all
        (fun b => b = n % 256) = true := by
      rw [hsubN, hdrop]
      simp only [List.all_eq_true]
      intro b hb
      rw [List.mem_replicate] at hb
      simp [hb.2, Nat.mod_eq_of_lt (show n < 256 by omega)]
    simp only [pkcs7Unpad, hlast, List.length_append, List.length_replicate]
    rw [if_neg (by omega), if_neg (by omega), if_neg (by omega),
      if_neg (by simp [halignN]), if_neg (by omega), if_pos hallN, hsubN, htake]
  · rintro (rfl | hbig)
    · simp [pkcs7Pad, GoResult.isErr]
    · have h0 : bs ≠ 0 := by omega
      simp [pkcs7Pad, GoResult.isErr, h0, hbig]

/-- Witness for the amended C3 at `p = [1,2,3]`, `bs = 4` (in-range) and
`bs = 300` (out of range). -/
theorem claim_C3_witness :
    (pkcs7Pad [1, 2, 3] 4 =
      .ok ([1, 2, 3] ++ List.replicate (4 - [1, 2, 3].length % 4) ((4 - [1, 2, 3].length % 4) % 256)) ∧
     1 ≤ 4 - [1, 2, 3].length % 4 ∧ 4 - [1, 2, 3].length % 4 ≤ 4 ∧
     (4 - [1, 2, 3].length % 4 ≤ 255 →
       pkcs7Unpad ([1, 2, 3] ++ List.replicate (4 - [1, 2, 3].length % 4) (4 - [1, 2, 3].length % 4)) 4 =
         .ok [1, 2, 3])) ∧
    (pkcs7Pad [1, 2, 3] 300).isErr = true :=
  ⟨(claim_C3_amended [1, 2, 3] 4).1 (by decide) (by decide),
   (claim_C3_amended [1, 2, 3] 300).2 (by decide)⟩

/-! ## Claim C4 -/

theorem getLastD_mem_of_ne_nil (l : List Nat) (h : l ≠ []) : l.getLastD 0 ∈ l := by
  rw [List.getLastD_eq_getLast?, List.getLast?_eq_getLast l h]
  exact List.getLast_mem h

/-- **C4**: for `bs` in `(0, 256]` and a byte sequence `d`, `Unpad(d, bs)`
fails exactly when `d` is empty, or its length is not a multiple of `bs`, or
its last byte `n` is `0` or exceeds `bs`, or one of the last `n` bytes
differs from `n`; otherwise it returns `d` with its last `n` bytes removed. -/
theorem claim_C4 :
    ∀ (d : List Nat) (bs : Nat), 0 < bs → bs ≤ 256 → (∀ b ∈ d, b < 256) →
      (((pkcs7Unpad d bs).isErr = true) ↔
        (d = [] ∨ d.length % bs ≠ 0 ∨ d.getLastD 0 = 0 ∨ bs < d.getLastD 0 ∨
          ∃ b ∈ d.drop (d.length - d.getLastD 0), b ≠ d.getLastD 0)) ∧
      (¬(d = [] ∨ d.length % bs ≠ 0 ∨ d.getLastD 0 = 0 ∨ bs < d.getLastD 0 ∨
          ∃ b ∈ d.drop (d.length - d.getLastD 0), b ≠ d.getLastD 0) →
        pkcs7Unpad d bs = .ok (d.take (d.length - d.getLastD 0))) := by
  intro d bs hbs0 hbs256 hbytes
  by_cases hempty : d = []
  · subst hempty
    rw [pkcs7Unpad, if_neg (by omega), if_neg (by omega), if_pos (by simp)]
    constructor
    · simp [GoResult.isErr]
    · intro hcon
      exact absurd (Or.inl rfl) hcon
  · have hlen0 : ¬(d.length = 0) := by simp [List.length_eq_zero, hempty]
    have hn256 : d.getLastD 0 < 256 := hbytes _ (getLastD_mem_of_ne_nil d hempty)
    have hmod : d.getLastD 0 % 256 = d.getLastD 0 := Nat.mod_eq_of_lt hn256
    by_cases halign : d.length % bs = 0
    · by_cases hbad : d.getLastD 0 > bs ∨ d.getLastD 0 = 0
      · rw [pkcs7Unpad, if_neg (by omega), if_neg (by omega), if_neg hlen0,
          if_neg (by simp [halign]), if_pos hbad]
        constructor
        · simp only [GoResult.isErr, true_iff]
          rcases hbad with h | h
          · exact Or.inr (Or.inr (Or.inr (Or.inl h)))
          · exact Or.inr (Or.inr (Or.inl h))
        · intro hcon
          exfalso
          rcases hbad with h | h
          · exact hcon (Or.inr (Or.inr (Or.inr (Or.inl h))))
          · exact hcon (Or.inr (Or.inr (Or.inl h)))
      · by_cases hall : (d.drop (d.length - d.getLastD 0)).all
            (fun b => b = d.getLastD 0 % 256) = true
        · have hclean : ¬(d = [] ∨ d.length % bs ≠ 0 ∨ d.getLastD 0 = 0 ∨
              bs < d.getLastD 0 ∨ ∃ b ∈ d.drop (d.length - d.getLastD 0), b ≠ d.getLastD 0) := by
            push_neg
            refine ⟨hempty, by simpa using halign, by omega, by omega, fun b hb => ?_⟩
            have h2 : b = d.getLastD 0 % 256 := by
              simpa using (List.all_eq_true.mp hall) b hb
            rw [hmod] at h2
            exact h2
          rw [pkcs7Unpad, if_neg (by omega), if_neg (by omega), if_neg hlen0,
            if_neg (by simp [halign]), if_neg hbad, if_pos hall]
          constructor
          · exact iff_of_false (by simp [GoResult.isErr]) hclean
          · intro _
            rfl
        · rw [pkcs7Unpad, if_neg (by omega), if_neg (by omega), if_neg hlen0,
            if_neg (by simp [halign]), if_neg hbad, if_neg hall]
          constructor
          · simp only [GoResult.isErr, true_iff]
            refine Or.inr (Or.inr (Or.inr (Or.inr ?_)))
            simp only [List.all_eq_true] at hall
            push_neg at hall
            obtain ⟨b, hb, hbn⟩ := hall
            refine ⟨b, hb, ?_⟩
            have h2 : ¬b = d.getLastD 0 % 256 := by simpa using hbn
            rw [hmod] at h2
            exact h2
          · intro hcon
            exfalso
            apply hcon
            refine Or.inr (Or.inr (Or.inr (Or.inr ?_)))
            simp only [List.all_eq_true] at hall
            push_neg at hall
            obtain ⟨b, hb, hbn⟩ := hall
            refine ⟨b, hb, ?_⟩
            have h2 : ¬b = d.getLastD 0 % 256 := by simpa using hbn
            rw [hmod] at h2
            exact h2
    · rw [pkcs7Unpad, if_neg (by omega), if_neg (by omega), if_neg hlen0,
        if_pos (by simp [halign])]
      constructor
      · simp only [GoResult.isErr, true_iff]
        exact Or.inr (Or.inl halign)
      · intro hcon
        exact absurd (Or.inr (Or.inl halign)) hcon

/-- Witness for C4: a validly padded input is stripped, and a tampered last
byte is rejected. -/
theorem claim_C4_witness :
    pkcs7Unpad [5, 6, 2, 2] 4 = .ok ([5, 6, 2, 2].take ([5, 6, 2, 2].length - [5, 6, 2, 2].getLastD 0)) ∧
    (pkcs7Unpad [5, 6, 2, 3] 4).isErr = true :=
  ⟨(claim_C4 [5, 6, 2, 2] 4 (by decide) (by decide) (by decide)).2 (by decide),
   ((claim_C4 [5, 6, 2, 3] 4 (by decide) (by decide) (by decide)).1).mpr (by decide)⟩

/-! ## Claim C2: chunking and per-mode round-trip lemmas -/

theorem toChunksF_step (bs fuel : Nat) (l : List Nat) (hne : l ≠ []) :
    toChunksF bs (fuel + 1) l = l.take bs :: toChunksF bs fuel (l.drop bs) := by
  cases l with
  | nil => exact absurd rfl hne
  | cons x xs => rfl

theorem toChunksF_congr (bs : Nat) (hbs : 0 < bs) :
    ∀ (f1 f2 : Nat) (l : List Nat), l.length ≤ f1 → l.length ≤ f2 →
      toChunksF bs f1 l = toChunksF bs f2 l := by
  intro f1
  induction f1 with
  | zero =>
    intro f2 l h1 _
    rw [List.eq_nil_of_length_eq_zero (Nat.le_zero.mp h1)]
    cases f2 <;> rfl
  | succ n ih =>
    intro f2 l h1 h2
    by_cases hne : l = []
    · subst hne
      cases f2 <;> rfl
    · obtain ⟨m, rfl⟩ : ∃ m, f2 = m + 1 := by
        cases f2 with
        | zero =>
          exact absurd (List.eq_nil_of_length_eq_zero (Nat.le_zero.mp h2)) hne
        | succ m => exact ⟨m, rfl⟩
      rw [toChunksF_step bs n l hne, toChunksF_step bs m l hne]
      have hlpos : l.length ≠ 0 := by simpa [List.length_eq_zero] using hne
      have hd : (l.drop bs).length = l.length - bs := by simp
      congr 1
      apply ih <;> rw [hd] <;> omega

theorem toChunksF_flatten (bs : Nat) (hbs : 0 < bs) :
    ∀ (fuel : Nat) (l : List Nat), l.length ≤ fuel → (toChunksF bs fuel l).flatten = l := by
  intro fuel
  induction fuel with
  | zero =>
    intro l hl
    rw [List.eq_nil_of_length_eq_zero (Nat.le_zero.mp hl)]
    rfl
  | succ n ih =>
    intro l hl
    by_cases hne : l = []
    · subst hne; rfl
    · rw [toChunksF_step bs n l hne]
      have hlpos : l.length ≠ 0 := by simpa [List.length_eq_zero] using hne
      have hfuel : (l.drop bs).length ≤ n := by simp; omega
      simp only [List.flatten_cons, ih _ hfuel]
      exact List.take_append_drop bs l

theorem toChunks_flatten (bs : Nat) (hbs : 0 < bs) (l : List Nat) :
    (toChunks bs l).flatten = l :=
  toChunksF_flatten bs hbs l.length l le_rfl

theorem toChunksF_uniform (bs : Nat) (hbs : 0 < bs) :
    ∀ (fuel : Nat) (l : List Nat), l.length ≤ fuel → l.length % bs = 0 →
      ∀ c ∈ toChunksF bs fuel l, c.length = bs := by
  intro fuel
  induction fuel with
  | zero =>
    intro l hl _
    rw [List.eq_nil_of_length_eq_zero (Nat.le_zero.mp hl)]
    simp [toChunksF]
  | succ n ih =>
    intro l hl halign c hc
    by_cases hne : l = []
    · subst hne; simp [toChunksF] at hc
    · have hlpos : l.length ≠ 0 := by simpa [List.length_eq_zero] using hne
      have hge : bs ≤ l.length := by
        by_contra hcon
        push_neg at hcon
        rw [Nat.mod_eq_of_lt hcon] at halign
        exact hlpos halign
      rw [toChunksF_step bs n l hne] at hc
      rcases List.mem_cons.mp hc with hc2 | hc2
      · subst hc2
        simp only [List.length_take]
        omega
      · have halign2 : (l.drop bs).length % bs = 0 := by
          simp only [List.length_drop]
          rw [← Nat.mod_eq_sub_mod hge]
          exact halign
        have hfuel : (l.drop bs).length ≤ n := by simp; omega
        exact ih _ hfuel halign2 c hc2

theorem toChunks_cons (bs : Nat) (hbs : 0 < bs) (c rest : List Nat) (hc : c.length = bs) :
    toChunks bs (c ++ rest) = c :: toChunks bs rest := by
  unfold toChunks
  have hne : c ++ rest ≠ [] := by
    intro h
    have := congrArg List.length h
    simp [hc] at this
    omega
  obtain ⟨m, hm⟩ : ∃ m, (c ++ rest).length = m + 1 := by
    refine ⟨(c ++ rest).length - 1, ?_⟩
    have : (c ++ rest).length ≠ 0 := by simpa [List.length_eq_zero] using hne
    omega
  rw [hm, toChunksF_step bs m _ hne]
  have htake : (c ++ rest).take bs = c := by rw [← hc]; exact List.take_left c rest
  have hdrop : (c ++ rest).drop bs = rest := by rw [← hc]; exact List.drop_left c rest
  rw [htake, hdrop]
  congr 1
  apply toChunksF_congr bs hbs
  · have : (c ++ rest).length = bs + rest.length := by simp [hc]
    omega
  · exact le_rfl

theorem toChunks_flatten_inv (bs : Nat) (hbs : 0 < bs) :
    ∀ (cs : List (List Nat)), (∀ c ∈ cs, c.length = bs) → toChunks bs cs.flatten = cs := by
  intro cs
  induction cs with
  | nil => intro _; rfl
  | cons c rest ih =>
    intro hcs
    rw [List.flatten_cons, toChunks_cons bs hbs c rest.flatten (hcs c (by simp))]
    congr 1
    exact ih (fun x hx => hcs x (by simp [hx]))

theorem flatten_uniform_length (bs : Nat) :
    ∀ (cs : List (List Nat)), (∀ c ∈ cs, c.length = bs) →
      cs.flatten.length = bs * cs.length := by
  intro cs
  induction cs with
  | nil => simp
  | cons c rest ih =>
    intro hcs
    simp only [List.flatten_cons, List.length_append, List.length_cons,
      hcs c (by simp), ih (fun x hx => hcs x (by simp [hx]))]
    ring

theorem zipXor_length_eq (xs ys : List Nat) (hx : xs.length = ys.length) :
    (zipXor xs ys).length = xs.length := by
  rw [zipXor_length_le, hx, Nat.min_self]

theorem cbcEncChunks_uniform (f : List Nat → List Nat) (bs : Nat)
    (hflen : ∀ b, b.length = bs → (f b).length = bs) :
    ∀ (cs : List (List Nat)) (iv : List Nat), iv.length = bs →
      (∀ c ∈ cs, c.length = bs) → ∀ c ∈ cbcEncChunks f iv cs, c.length = bs := by
  intro cs
  induction cs with
  | nil => intro iv _ _ c hc; simp [cbcEncChunks] at hc
  | cons b rest ih =>
    intro iv hiv hcs c hc
    have hb : b.length = bs := hcs b (by simp)
    have hhead : (f (zipXor iv b)).length = bs :=
      hflen _ (by rw [zipXor_length_eq iv b (by omega), hiv])
    rw [cbcEncChunks] at hc
    rcases List.mem_cons.mp hc with hc2 | hc2
    · rw [hc2]; exact hhead
    · exact ih (f (zipXor iv b)) hhead (fun x hx => hcs x (by simp [hx])) c hc2

theorem cbcDecChunks_encChunks (f g : List Nat → List Nat) (bs : Nat)
    (hflen : ∀ b, b.length = bs → (f b).length = bs)
    (hfg : ∀ b, b.length = bs → g (f b) = b) :
    ∀ (cs : List (List Nat)) (iv : List Nat), iv.length = bs →
      (∀ c ∈ cs, c.length = bs) →
      cbcDecChunks g iv (cbcEncChunks f iv cs) = cs := by
  intro cs
  induction cs with
  | nil => intro iv _ _; rfl
  | cons b rest ih =>
    intro iv hiv hcs
    have hb : b.length = bs := hcs b (by simp)
    have hx : (zipXor iv b).length = bs := by rw [zipXor_length_eq iv b (by omega), hiv]
    have hhead : (f (zipXor iv b)).length = bs := hflen _ hx
    rw [cbcEncChunks, cbcDecChunks, hfg _ hx,
      zipXor_zipXor_left iv b (by omega),
      ih (f (zipXor iv b)) hhead (fun x hx2 => hcs x (by simp [hx2]))]

theorem cfbEncChunks_uniform (f : List Nat → List Nat) (bs : Nat)
    (hflen : ∀ b, b.length = bs → (f b).length = bs) :
    ∀ (cs : List (List Nat)) (reg : List Nat), reg.length = bs →
      (∀ c ∈ cs, c.length = bs) → ∀ c ∈ cfbEncChunks f reg cs, c.length = bs := by
  intro cs
  induction cs with
  | nil => intro reg _ _ c hc; simp [cfbEncChunks] at hc
  | cons b rest ih =>
    intro reg hreg hcs c hc
    have hb : b.length = bs := hcs b (by simp)
    have hk : (f reg).length = bs := hflen _ hreg
    have hhead : (zipXor b (f reg)).length = bs := by
      rw [zipXor_length_eq b (f reg) (by omega), hb]
    rw [cfbEncChunks] at hc
    rcases List.mem_cons.mp hc with hc2 | hc2
    · rw [hc2]; exact hhead
    · exact ih (zipXor b (f reg)) hhead (fun x hx => hcs x (by simp [hx])) c hc2

theorem cfbDecChunks_encChunks (f : List Nat → List Nat) (bs : Nat)
    (hflen : ∀ b, b.length = bs → (f b).length = bs) :
    ∀ (cs : List (List Nat)) (reg : List Nat), reg.length = bs →
      (∀ c ∈ cs, c.length = bs) →
      cfbDecChunks f reg (cfbEncChunks f reg cs) = cs := by
  intro cs
  induction cs with
  | nil => intro reg _ _; rfl
  | cons b rest ih =>
    intro reg hreg hcs
    have hb : b.length = bs := hcs b (by simp)
    have hk : (f reg).length = bs := hflen _ hreg
    have hhead : (zipXor b (f reg)).length = bs := by
      rw [zipXor_length_eq b (f reg) (by omega), hb]
    rw [cfbEncChunks, cfbDecChunks, zipXor_cancel_right b (f reg) (by omega),
      ih (zipXor b (f reg)) hhead (fun x hx2 => hcs x (by simp [hx2]))]

theorem ofbChunks_uniform (f : List Nat → List Nat) (bs : Nat)
    (hflen : ∀ b, b.length = bs → (f b).length = bs) :
    ∀ (cs : List (List Nat)) (s : List Nat), s.length = bs →
      (∀ c ∈ cs, c.length = bs) → ∀ c ∈ ofbChunks f s cs, c.length = bs := by
  intro cs
  induction cs with
  | nil => intro s _ _ c hc; simp [ofbChunks] at hc
  | cons b rest ih =>
    intro s hs hcs c hc
    have hb : b.length = bs := hcs b (by simp)
    have hk : (f s).length = bs := hflen _ hs
    rw [ofbChunks] at hc
    rcases List.mem_cons.mp hc with hc2 | hc2
    · rw [hc2, zipXor_length_eq b (f s) (by omega)]; exact hb
    · exact ih (f s) hk (fun x hx => hcs x (by simp [hx])) c hc2

theorem ofbChunks_involutive (f : List Nat → List Nat) (bs : Nat)
    (hflen : ∀ b, b.length = bs → (f b).length = bs) :
    ∀ (cs : List (List Nat)) (s : List Nat), s.length = bs →
      (∀ c ∈ cs, c.length = bs) →
      ofbChunks f s (ofbChunks f s cs) = cs := by
  intro cs
  induction cs with
  | nil => intro s _ _; rfl
  | cons b rest ih =>
    intro s hs hcs
    have hb : b.length = bs := hcs b (by simp)
    have hk : (f s).length = bs := hflen _ hs
    rw [ofbChunks, ofbChunks, zipXor_cancel_right b (f s) (by omega),
      ih (f s) hk (fun x hx2 => hcs x (by simp [hx2]))]

theorem incBEAux_length (l : List Nat) : (incBEAux l).length = l.length := by
  induction l with
  | nil => rfl
  | cons x xs ih =>
    rw [incBEAux]
    by_cases h : (x + 1) % 256 = 0 <;> simp [h, ih]

theorem incBE_length (l : List Nat) : (incBE l).length = l.length := by
  simp [incBE, incBEAux_length]

theorem ctrChunks_uniform (f : List Nat → List Nat) (bs : Nat)
    (hflen : ∀ b, b.length = bs → (f b).length = bs) :
    ∀ (cs : List (List Nat)) (ctr : List Nat), ctr.length = bs →
      (∀ c ∈ cs, c.length = bs) → ∀ c ∈ ctrChunks f ctr cs, c.length = bs := by
  intro cs
  induction cs with
  | nil => intro ctr _ _ c hc; simp [ctrChunks] at hc
  | cons b rest ih =>
    intro ctr hctr hcs c hc
    have hb : b.length = bs := hcs b (by simp)
    have hk : (f ctr).length = bs := hflen _ hctr
    rw [ctrChunks] at hc
    rcases List.mem_cons.mp hc with hc2 | hc2
    · rw [hc2, zipXor_length_eq b (f ctr) (by omega)]; exact hb
    · exact ih (incBE ctr) (by rw [incBE_length, hctr])
        (fun x hx => hcs x (by simp [hx])) c hc2

theorem ctrChunks_involutive (f : List Nat → List Nat) (bs : Nat)
    (hflen : ∀ b, b.length = bs → (f b).length = bs) :
    ∀ (cs : List (List Nat)) (ctr : List Nat), ctr.length = bs →
      (∀ c ∈ cs, c.length = bs) →
      ctrChunks f ctr (ctrChunks f ctr cs) = cs := by
  intro cs
  induction cs with
  | nil => intro ctr _ _; rfl
  | cons b rest ih =>
    intro ctr hctr hcs
    have hb : b.length = bs := hcs b (by simp)
    have hk : (f ctr).length = bs := hflen _ hctr
    rw [ctrChunks, ctrChunks, zipXor_cancel_right b (f ctr) (by omega),
      ih (incBE ctr) (by rw [incBE_length, hctr]) (fun x hx2 => hcs x (by simp [hx2]))]

/-- **C2**: for CBC, CFB, OFB and CTR in embedded-IV mode
(`keepIVSeparate = false`), on any block primitive whose decryption inverts
its encryption on `blockSize`-byte blocks: for every input whose length is a
multiple of `blockSize`, the engine's encrypt output is exactly
`iv ++ rawTransform(data)`, decrypting that output strips the first
`blockSize` bytes as the IV and recovers `data`, and decrypt of any input
shorter than `blockSize` fails with the `CiphertextTooShort`-style error. -/
theorem claim_C2 (B : Block) (iv data : List Nat)
    (hbs : 0 < B.blockSize)
    (hiv : iv.length = B.blockSize)
    (hflen : ∀ b, b.length = B.blockSize → (B.encryptB b).length = B.blockSize)
    (hfg : ∀ b, b.length = B.blockSize → B.decryptB (B.encryptB b) = b)
    (halign : data.length % B.blockSize = 0) :
    (cbcModeEncrypt B (some iv) false data = .ok (iv ++ cbcRawEncrypt B iv data) ∧
     cbcModeDecrypt B (some iv) false (iv ++ cbcRawEncrypt B iv data) = .ok data) ∧
    (cfbModeEncrypt B (some iv) false data = .ok (iv ++ cfbRawEncrypt B iv data) ∧
     cfbModeDecrypt B (some iv) false (iv ++ cfbRawEncrypt B iv data) = .ok data) ∧
    (ofbModeEncrypt B (some iv) false data = .ok (iv ++ ofbRaw B iv data) ∧
     ofbModeDecrypt B (some iv) false (iv ++ ofbRaw B iv data) = .ok data) ∧
    (ctrModeEncrypt B (some iv) false data = .ok (iv ++ ctrRaw B iv data) ∧
     ctrModeDecrypt B (some iv) false (iv ++ ctrRaw B iv data) = .ok data) ∧
    (∀ d : List Nat, d.length < B.blockSize →
      cbcModeDecrypt B (some iv) false d = .err "密文太短，无法提取IV" ∧
      cfbModeDecrypt B (some iv) false d = .err "密文太短，无法提取IV" ∧
      ofbModeDecrypt B (some iv) false d = .err "密文太短，无法提取IV" ∧
      ctrModeDecrypt B (some iv) false d = .err "密文太短，无法提取IV") := by
  have hcs : ∀ c ∈ toChunks B.blockSize data, c.length = B.blockSize :=
    toChunksF_uniform B.blockSize hbs data.length data le_rfl halign
  have hivne : iv.length ≠ 0 := by omega
  constructor
  · -- CBC
    have hencU : ∀ c ∈ cbcEncChunks B.encryptB iv (toChunks B.blockSize data),
        c.length = B.blockSize :=
      cbcEncChunks_uniform B.encryptB B.blockSize hflen (toChunks B.blockSize data) iv hiv hcs
    have hlenE : (cbcRawEncrypt B iv data).length % B.blockSize = 0 := by
      rw [cbcRawEncrypt, flatten_uniform_length B.blockSize _ hencU]
      exact Nat.mul_mod_right _ _
    have htakeE : (iv ++ cbcRawEncrypt B iv data).take B.blockSize = iv := by
      rw [← hiv]; exact List.take_left iv _
    have hdropE : (iv ++ cbcRawEncrypt B iv data).drop B.blockSize = cbcRawEncrypt B iv data := by
      rw [← hiv]; exact List.drop_left iv _
    have hrt : cbcRawDecrypt B iv (cbcRawEncrypt B iv data) = data := by
      rw [cbcRawDecrypt, cbcRawEncrypt, toChunks_flatten_inv B.blockSize hbs _ hencU,
        cbcDecChunks_encChunks B.encryptB B.decryptB B.blockSize hflen hfg _ iv hiv hcs]
      exact toChunks_flatten B.blockSize hbs data
    have hlong : ¬((iv ++ cbcRawEncrypt B iv data).length < B.blockSize) := by
      simp [hiv]
    constructor
    · simp [cbcModeEncrypt, olen, obytes, hiv, halign]
    · rw [cbcModeDecrypt]
      simp only [if_neg hlong, htakeE, hdropE, Bool.false_eq_true, if_false]
      rw [if_neg (by simp [hlenE]), hrt]
  constructor
  · -- CFB
    constructor
    · simp [cfbModeEncrypt, streamModeEncrypt, olen, obytes, hiv]
    · have htakeE : (iv ++ cfbRawEncrypt B iv data).take B.blockSize = iv := by
        rw [← hiv]; exact List.take_left iv _
      have hdropE : (iv ++ cfbRawEncrypt B iv data).drop B.blockSize = cfbRawEncrypt B iv data := by
        rw [← hiv]; exact List.drop_left iv _
      have hencU : ∀ c ∈ cfbEncChunks B.encryptB iv (toChunks B.blockSize data),
          c.length = B.blockSize :=
        cfbEncChunks_uniform B.encryptB B.blockSize hflen (toChunks B.blockSize data) iv hiv hcs
      have hrt : cfbRawDecrypt B iv (cfbRawEncrypt B iv data) = data := by
        rw [cfbRawDecrypt, cfbRawEncrypt, toChunks_flatten_inv B.blockSize hbs _ hencU,
          cfbDecChunks_encChunks B.encryptB B.blockSize hflen _ iv hiv hcs]
        exact toChunks_flatten B.blockSize hbs data
      have hlong : ¬((iv ++ cfbRawEncrypt B iv data).length < B.blockSize) := by
        simp [hiv]
      rw [cfbModeDecrypt, streamModeDecrypt]
      simp only [if_neg hlong, htakeE, hdropE, Bool.false_eq_true, if_false]
      rw [hrt]
  constructor
  · -- OFB
    constructor
    · simp [ofbModeEncrypt, streamModeEncrypt, olen, obytes, hiv]
    · have htakeE : (iv ++ ofbRaw B iv data).take B.blockSize = iv := by
        rw [← hiv]; exact List.take_left iv _
      have hdropE : (iv ++ ofbRaw B iv data).drop B.blockSize = ofbRaw B iv data := by
        rw [← hiv]; exact List.drop_left iv _
      have hencU : ∀ c ∈ ofbChunks B.encryptB iv (toChunks B.blockSize data),
          c.length = B.blockSize :=
        ofbChunks_uniform B.encryptB B.blockSize hflen (toChunks B.blockSize data) iv hiv hcs
      have hrt : ofbRaw B iv (ofbRaw B iv data) = data := by
        rw [ofbRaw, ofbRaw, toChunks_flatten_inv B.blockSize hbs _ hencU,
          ofbChunks_involutive B.encryptB B.blockSize hflen _ iv hiv hcs]
        exact toChunks_flatten B.blockSize hbs data
      have hlong : ¬((iv ++ ofbRaw B iv data).length < B.blockSize) := by
        simp [hiv]
      rw [ofbModeDecrypt, streamModeDecrypt]
      simp only [if_neg hlong, htakeE, hdropE, Bool.false_eq_true, if_false]
      rw [hrt]
  constructor
  · -- CTR
    constructor
    · simp [ctrModeEncrypt, streamModeEncrypt, olen, obytes, hiv]
    · have htakeE : (iv ++ ctrRaw B iv data).take B.blockSize = iv := by
        rw [← hiv]; exact List.take_left iv _
      have hdropE : (iv ++ ctrRaw B iv data).drop B.blockSize = ctrRaw B iv data := by
        rw [← hiv]; exact List.drop_left iv _
      have hencU : ∀ c ∈ ctrChunks B.encryptB iv (toChunks B.blockSize data),
          c.length = B.blockSize :=
        ctrChunks_uniform B.encryptB B.blockSize hflen (toChunks B.blockSize data) iv hiv hcs
      have hrt : ctrRaw B iv (ctrRaw B iv data) = data := by
        rw [ctrRaw, ctrRaw, toChunks_flatten_inv B.blockSize hbs _ hencU,
          ctrChunks_involutive B.encryptB B.blockSize hflen _ iv hiv hcs]
        exact toChunks_flatten B.blockSize hbs data
      have hlong : ¬((iv ++ ctrRaw B iv data).length < B.blockSize) := by
        simp [hiv]
      rw [ctrModeDecrypt, streamModeDecrypt]
      simp only [if_neg hlong, htakeE, hdropE, Bool.false_eq_true, if_false]
      rw [hrt]
  · -- short inputs
    intro d hd
    refine ⟨?_, ?_, ?_, ?_⟩
    · simp [cbcModeDecrypt, hd]
    · simp [cfbModeDecrypt, streamModeDecrypt, hd]
    · simp [ofbModeDecrypt, streamModeDecrypt, hd]
    · simp [ctrModeDecrypt, streamModeDecrypt, hd]

/-- Witness for C2 at the identity block primitive on 2-byte blocks, IV
`[0,0]`, aligned data `[1,2,3,4]`, and the 1-byte short input `[9]`. -/
theorem claim_C2_witness :
    (cbcModeEncrypt idBlock2 (some [0, 0]) false [1, 2, 3, 4] =
      .ok ([0, 0] ++ cbcRawEncrypt idBlock2 [0, 0] [1, 2, 3, 4]) ∧
     cbcModeDecrypt idBlock2 (some [0, 0]) false
       ([0, 0] ++ cbcRawEncrypt idBlock2 [0, 0] [1, 2, 3, 4]) = .ok [1, 2, 3, 4]) ∧
    (cfbModeEncrypt idBlock2 (some [0, 0]) false [1, 2, 3, 4] =
      .ok ([0, 0] ++ cfbRawEncrypt idBlock2 [0, 0] [1, 2, 3, 4]) ∧
     cfbModeDecrypt idBlock2 (some [0, 0]) false
       ([0, 0] ++ cfbRawEncrypt idBlock2 [0, 0] [1, 2, 3, 4]) = .ok [1, 2, 3, 4]) ∧
    (ofbModeEncrypt idBlock2 (some [0, 0]) false [1, 2, 3, 4] =
      .ok ([0, 0] ++ ofbRaw idBlock2 [0, 0] [1, 2, 3, 4]) ∧
     ofbModeDecrypt idBlock2 (some [0, 0]) false
       ([0, 0] ++ ofbRaw idBlock2 [0, 0] [1, 2, 3, 4]) = .ok [1, 2, 3, 4]) ∧
    (ctrModeEncrypt idBlock2 (some [0, 0]) false [1, 2, 3, 4] =
      .ok ([0, 0] ++ ctrRaw idBlock2 [0, 0] [1, 2, 3, 4]) ∧
     ctrModeDecrypt idBlock2 (some [0, 0]) false
       ([0, 0] ++ ctrRaw idBlock2 [0, 0] [1, 2, 3, 4]) = .ok [1, 2, 3, 4]) ∧
    (cbcModeDecrypt idBlock2 (some [0, 0]) false [9] = .err "密文太短，无法提取IV" ∧
     cfbModeDecrypt idBlock2 (some [0, 0]) false [9] = .err "密文太短，无法提取IV" ∧
     ofbModeDecrypt idBlock2 (some [0, 0]) false [9] = .err "密文太短，无法提取IV" ∧
     ctrModeDecrypt idBlock2 (some [0, 0]) false [9] = .err "密文太短，无法提取IV") :=
  have h := claim_C2 idBlock2 [0, 0] [1, 2, 3, 4] (by decide) (by decide)
    (fun b hb => hb) (fun b hb => rfl) (by decide)
  ⟨h.1, h.2.1, h.2.2.1, h.2.2.2.1, h.2.2.2.2 [9] (by decide)⟩
